import Mathlib

/-
Verification of the PvtPpr hashlink codec and decode cascade
(repository file iPvtPpr/iPvtPpr.py).

The Python module is embedded shallowly:

* pure library routines the source calls (base64, UTF-8, percent
  encoding, regular-expression matches for the concrete patterns that
  appear in the source, str.split / str.replace / str.strip) are
  translated into executable Lean functions with the exact semantics of
  the CPython implementations they call;
* the three external capabilities (the LZMA library decoder, the
  embedded JavaScript legacy decompressor run through execjs, and the
  HTTP client) are oracle parameters, matching the design's
  "external capability" contracts;
* Python exceptions are modelled with Except / Option values; the
  exception types that the source's except-clauses distinguish are kept
  apart so that caught and uncaught exceptions can be told apart;
* decode_hashlink additionally returns a trace of the attempts it made
  (one entry per padding / skip / JS / network attempt, mirroring the
  source's per-attempt log records) so that claims about attempt order
  and fallthrough are statable.
-/


/-! ### Base-64 transport codec

base64.b64encode produces the standard alphabet with full padding.
base64.b64decode (validate=False) is CPython's legacy binascii
a2b_base64 loop: non-alphabet characters are skipped, a pad character
at quad position >= 2 that completes a quad ends decoding successfully,
and leftover quad positions raise binascii.Error.  b64decode first
encodes the str argument as ASCII; a non-ASCII character raises
ValueError, which is NOT a binascii.Error. -/

def b64Char (n : Nat) : Char :=
  if n < 26 then Char.ofNat (65 + n)
  else if n < 52 then Char.ofNat (97 + (n - 26))
  else if n < 62 then Char.ofNat (48 + (n - 52))
  else if n = 62 then '+'
  else '/'

def b64Index (c : Char) : Option Nat :=
  if 'A' ≤ c ∧ c ≤ 'Z' then some (c.toNat - 65)
  else if 'a' ≤ c ∧ c ≤ 'z' then some (c.toNat - 97 + 26)
  else if '0' ≤ c ∧ c ≤ '9' then some (c.toNat - 48 + 52)
  else if c = '+' then some 62
  else if c = '/' then some 63
  else none

/-- base64.b64encode on a byte list (bytes as Nat below 256). -/
def b64EncodeChunks : List Nat → List Char
  | b0 :: b1 :: b2 :: rest =>
    b64Char (b0 / 4) :: b64Char ((b0 % 4) * 16 + b1 / 16) ::
    b64Char ((b1 % 16) * 4 + b2 / 64) :: b64Char (b2 % 64) :: b64EncodeChunks rest
  | [b0, b1] =>
    [b64Char (b0 / 4), b64Char ((b0 % 4) * 16 + b1 / 16), b64Char ((b1 % 16) * 4), '=']
  | [b0] => [b64Char (b0 / 4), b64Char ((b0 % 4) * 16), '=', '=']
  | [] => []

/-- The two exception classes b64decode can raise: ValueError for a
non-ASCII str argument and binascii.Error for bad padding. -/
inductive B64Error where
  | nonAscii
  | binasciiError
deriving DecidableEq, Repr

/-- CPython binascii a2b_base64, strict_mode=False.  State: quad
position, leftover bits, consecutive pad count, reversed output. -/
def a2bRun : List Char → Nat → Nat → Nat → List Nat → Except B64Error (List Nat)
  | [], quadPos, _, _, acc =>
    if quadPos = 0 then .ok acc.reverse else .error .binasciiError
  | c :: rest, quadPos, leftchar, pads, acc =>
    if c = '=' then
      if 2 ≤ quadPos then
        if 4 ≤ quadPos + (pads + 1) then .ok acc.reverse
        else a2bRun rest quadPos leftchar (pads + 1) acc
      else a2bRun rest quadPos leftchar pads acc
    else
      match b64Index c with
      | none => a2bRun rest quadPos leftchar pads acc
      | some d =>
        match quadPos with
        | 0 => a2bRun rest 1 d 0 acc
        | 1 => a2bRun rest 2 (d % 16) 0 ((leftchar * 4 + d / 16) :: acc)
        | 2 => a2bRun rest 3 (d % 4) 0 ((leftchar * 16 + d / 4) :: acc)
        | _ => a2bRun rest 0 0 0 ((leftchar * 64 + d) :: acc)

/-- base64.b64decode on a Python str argument. -/
def b64decodeChars (cs : List Char) : Except B64Error (List Nat) :=
  if cs.any (fun c => 128 ≤ c.toNat) then .error .nonAscii
  else a2bRun cs 0 0 0 []

/-- The string of n '=' characters appended by the padding loops. -/
def padChars (n : Nat) : List Char := List.replicate n '='

theorem b64Index_b64Char : ∀ v : Nat, v < 64 → b64Index (b64Char v) = some v := by
  decide

theorem b64Char_ne_pad : ∀ v : Nat, v < 64 → b64Char v ≠ '=' := by
  decide

theorem b64Char_ascii : ∀ v : Nat, v < 64 → (b64Char v).toNat < 128 := by
  decide

/-- One a2b step on a valid (non-pad) alphabet character at quad
position 0. -/
theorem a2bRun_step0 (c : Char) (d : Nat) (hc : b64Index c = some d)
    (hne : c ≠ '=') (rest : List Char) (l p : Nat) (acc : List Nat) :
    a2bRun (c :: rest) 0 l p acc = a2bRun rest 1 d 0 acc := by
  simp [a2bRun, if_neg hne, hc]

/-- One a2b step on a valid alphabet character at quad position 1. -/
theorem a2bRun_step1 (c : Char) (d : Nat) (hc : b64Index c = some d)
    (hne : c ≠ '=') (rest : List Char) (l p : Nat) (acc : List Nat) :
    a2bRun (c :: rest) 1 l p acc =
      a2bRun rest 2 (d % 16) 0 ((l * 4 + d / 16) :: acc) := by
  simp [a2bRun, if_neg hne, hc]

/-- One a2b step on a valid alphabet character at quad position 2. -/
theorem a2bRun_step2 (c : Char) (d : Nat) (hc : b64Index c = some d)
    (hne : c ≠ '=') (rest : List Char) (l p : Nat) (acc : List Nat) :
    a2bRun (c :: rest) 2 l p acc =
      a2bRun rest 3 (d % 4) 0 ((l * 16 + d / 4) :: acc) := by
  simp [a2bRun, if_neg hne, hc]

/-- One a2b step on a valid alphabet character at quad position 3. -/
theorem a2bRun_step3 (c : Char) (d : Nat) (hc : b64Index c = some d)
    (hne : c ≠ '=') (rest : List Char) (l p : Nat) (acc : List Nat) :
    a2bRun (c :: rest) 3 l p acc =
      a2bRun rest 0 0 0 ((l * 64 + d) :: acc) := by
  simp [a2bRun, if_neg hne, hc]

/-- Decoding one full 4-character quad recovers its 3 bytes. -/
theorem a2bRun_quad (b0 b1 b2 : Nat) (h0 : b0 < 256) (h1 : b1 < 256) (h2 : b2 < 256)
    (tail : List Char) (l p : Nat) (acc : List Nat) :
    a2bRun (b64Char (b0 / 4) :: b64Char ((b0 % 4) * 16 + b1 / 16) ::
            b64Char ((b1 % 16) * 4 + b2 / 64) :: b64Char (b2 % 64) :: tail) 0 l p acc
      = a2bRun tail 0 0 0 (b2 :: b1 :: b0 :: acc) := by
  have d1 : b0 / 4 < 64 := by omega
  have d2 : (b0 % 4) * 16 + b1 / 16 < 64 := by omega
  have d3 : (b1 % 16) * 4 + b2 / 64 < 64 := by omega
  have d4 : b2 % 64 < 64 := by omega
  rw [a2bRun_step0 _ _ (b64Index_b64Char _ d1) (b64Char_ne_pad _ d1)]
  rw [a2bRun_step1 _ _ (b64Index_b64Char _ d2) (b64Char_ne_pad _ d2)]
  rw [a2bRun_step2 _ _ (b64Index_b64Char _ d3) (b64Char_ne_pad _ d3)]
  rw [a2bRun_step3 _ _ (b64Index_b64Char _ d4) (b64Char_ne_pad _ d4)]
  have e1 : (b0 / 4) * 4 + ((b0 % 4) * 16 + b1 / 16) / 16 = b0 := by omega
  have e2 : ((b0 % 4) * 16 + b1 / 16) % 16 = b1 / 16 := by omega
  have e3 : (b1 / 16) * 16 + ((b1 % 16) * 4 + b2 / 64) / 4 = b1 := by omega
  have e4 : ((b1 % 16) * 4 + b2 / 64) % 4 = b2 / 64 := by omega
  have e5 : (b2 / 64) * 64 + b2 % 64 = b2 := by omega
  rw [e1, e2, e3, e4, e5]

/-- a2b_base64 of the full-padding encoding yields the original bytes,
whatever the starting leftover bits, pad count and accumulator. -/
theorem a2bRun_enc (bs : List Nat) : ∀ (l p : Nat) (acc : List Nat),
    (∀ b ∈ bs, b < 256) →
    a2bRun (b64EncodeChunks bs) 0 l p acc = .ok (acc.reverse ++ bs) := by
  induction bs using b64EncodeChunks.induct with
  | case4 =>
    intro l p acc _
    simp [b64EncodeChunks, a2bRun]
  | case3 b0 =>
    intro l p acc hb
    have h0 : b0 < 256 := hb b0 (by simp)
    have d1 : b0 / 4 < 64 := by omega
    have d2 : (b0 % 4) * 16 < 64 := by omega
    simp only [b64EncodeChunks]
    rw [a2bRun_step0 _ _ (b64Index_b64Char _ d1) (b64Char_ne_pad _ d1)]
    rw [a2bRun_step1 _ _ (b64Index_b64Char _ d2) (b64Char_ne_pad _ d2)]
    have e1 : (b0 / 4) * 4 + (b0 % 4) * 16 / 16 = b0 := by omega
    rw [e1]
    simp [a2bRun]
  | case2 b0 b1 =>
    intro l p acc hb
    have h0 : b0 < 256 := hb b0 (by simp)
    have h1 : b1 < 256 := hb b1 (by simp)
    have d1 : b0 / 4 < 64 := by omega
    have d2 : (b0 % 4) * 16 + b1 / 16 < 64 := by omega
    have d3 : (b1 % 16) * 4 < 64 := by omega
    simp only [b64EncodeChunks]
    rw [a2bRun_step0 _ _ (b64Index_b64Char _ d1) (b64Char_ne_pad _ d1)]
    rw [a2bRun_step1 _ _ (b64Index_b64Char _ d2) (b64Char_ne_pad _ d2)]
    rw [a2bRun_step2 _ _ (b64Index_b64Char _ d3) (b64Char_ne_pad _ d3)]
    have e1 : (b0 / 4) * 4 + ((b0 % 4) * 16 + b1 / 16) / 16 = b0 := by omega
    have e2 : ((b0 % 4) * 16 + b1 / 16) % 16 = b1 / 16 := by omega
    have e3 : (b1 / 16) * 16 + ((b1 % 16) * 4) / 4 = b1 := by omega
    rw [e1, e2, e3]
    simp [a2bRun]
  | case1 b0 b1 b2 rest ih =>
    intro l p acc hb
    have h0 : b0 < 256 := hb b0 (by simp)
    have h1 : b1 < 256 := hb b1 (by simp)
    have h2 : b2 < 256 := hb b2 (by simp)
    simp only [b64EncodeChunks]
    rw [a2bRun_quad b0 b1 b2 h0 h1 h2]
    rw [ih 0 0 (b2 :: b1 :: b0 :: acc) (fun b h => hb b (by simp [h]))]
    simp

/-- Every character of an encoding of genuine bytes is an alphabet
character or '='. -/
theorem b64EncodeChunks_chars (bs : List Nat) (hbs : ∀ b ∈ bs, b < 256) :
    ∀ c ∈ b64EncodeChunks bs, c = '=' ∨ ∃ v, v < 64 ∧ c = b64Char v := by
  induction bs using b64EncodeChunks.induct with
  | case4 => simp [b64EncodeChunks]
  | case3 b0 =>
    have h0 : b0 < 256 := hbs b0 (by simp)
    intro c hc
    simp only [b64EncodeChunks, List.mem_cons, List.mem_singleton,
      List.not_mem_nil, or_false] at hc
    rcases hc with h | h | h | h
    · exact .inr ⟨_, by omega, h⟩
    · exact .inr ⟨_, by omega, h⟩
    · exact .inl h
    · exact .inl h
  | case2 b0 b1 =>
    have h0 : b0 < 256 := hbs b0 (by simp)
    have h1 : b1 < 256 := hbs b1 (by simp)
    intro c hc
    simp only [b64EncodeChunks, List.mem_cons, List.mem_singleton,
      List.not_mem_nil, or_false] at hc
    rcases hc with h | h | h | h
    · exact .inr ⟨_, by omega, h⟩
    · exact .inr ⟨_, by omega, h⟩
    · exact .inr ⟨_, by omega, h⟩
    · exact .inl h
  | case1 b0 b1 b2 rest ih =>
    have h0 : b0 < 256 := hbs b0 (by simp)
    have h1 : b1 < 256 := hbs b1 (by simp)
    have h2 : b2 < 256 := hbs b2 (by simp)
    intro c hc
    simp only [b64EncodeChunks, List.mem_cons] at hc
    rcases hc with h | h | h | h | h
    · exact .inr ⟨_, by omega, h⟩
    · exact .inr ⟨_, by omega, h⟩
    · exact .inr ⟨_, by omega, h⟩
    · exact .inr ⟨_, by omega, h⟩
    · exact ih (fun b hb => hbs b (by simp [hb])) c h


/-! ### UTF-8 codec

str.encode() and bytes.decode('utf-8') with strict error handling:
the decoder rejects invalid start bytes, overlong encodings, surrogate
code points and truncated sequences, exactly as CPython does. -/

def utf8EncodeChar (n : Nat) : List Nat :=
  if n < 128 then [n]
  else if n < 2048 then [192 + n / 64, 128 + n % 64]
  else if n < 65536 then [224 + n / 4096, 128 + (n / 64) % 64, 128 + n % 64]
  else [240 + n / 262144, 128 + (n / 4096) % 64, 128 + (n / 64) % 64, 128 + n % 64]

/-- str.encode() of a Python string given as its character list. -/
def utf8EncodeList (cs : List Char) : List Nat :=
  cs.flatMap fun c => utf8EncodeChar c.toNat

/-- Decode one UTF-8 sequence whose lead byte is b and whose
continuation bytes sit at the front of rest; yields the code point and
the number of continuation bytes consumed, or none on any byte
sequence CPython's strict decoder rejects (invalid start bytes,
overlong encodings, surrogates, truncated sequences). -/
def utf8Step (b : Nat) (rest : List Nat) : Option (Nat × Nat) :=
  if b < 128 then some (b, 0)
  else if b < 194 then none
  else if b < 224 then
    if 1 ≤ rest.length then
      let b1 := rest.getD 0 0
      if 128 ≤ b1 ∧ b1 < 192 then some ((b - 192) * 64 + (b1 - 128), 1) else none
    else none
  else if b < 240 then
    if 2 ≤ rest.length then
      let b1 := rest.getD 0 0
      let b2 := rest.getD 1 0
      if (if b = 224 then 160 ≤ b1 ∧ b1 < 192
          else if b = 237 then 128 ≤ b1 ∧ b1 < 160
          else 128 ≤ b1 ∧ b1 < 192) ∧ 128 ≤ b2 ∧ b2 < 192 then
        some ((b - 224) * 4096 + (b1 - 128) * 64 + (b2 - 128), 2)
      else none
    else none
  else if b < 245 then
    if 3 ≤ rest.length then
      let b1 := rest.getD 0 0
      let b2 := rest.getD 1 0
      let b3 := rest.getD 2 0
      if (if b = 240 then 144 ≤ b1 ∧ b1 < 192
          else if b = 244 then 128 ≤ b1 ∧ b1 < 144
          else 128 ≤ b1 ∧ b1 < 192) ∧ (128 ≤ b2 ∧ b2 < 192) ∧ (128 ≤ b3 ∧ b3 < 192) then
        some ((b - 240) * 262144 + (b1 - 128) * 4096 + (b2 - 128) * 64 + (b3 - 128), 3)
      else none
    else none
  else none

/-- bytes.decode('utf-8') main loop (strict), with a fuel argument so
that the recursion is structural; one unit of fuel is spent per
decoded sequence, so any fuel at least the byte count is enough. -/
def utf8DecodeFuel : Nat → List Nat → List Char → Option (List Char)
  | _, [], acc => some acc.reverse
  | 0, _ :: _, _ => none
  | fuel + 1, b :: rest, acc =>
    match utf8Step b rest with
    | some pr => utf8DecodeFuel fuel (rest.drop pr.2) (Char.ofNat pr.1 :: acc)
    | none => none

/-- bytes.decode('utf-8'): some on success, none when CPython would
raise UnicodeDecodeError. -/
def utf8DecodeList (bs : List Nat) : Option (List Char) := utf8DecodeFuel bs.length bs []

theorem utf8DecodeFuel_nil (fuel : Nat) (acc : List Char) :
    utf8DecodeFuel fuel [] acc = some acc.reverse := by
  cases fuel <;> rw [utf8DecodeFuel]

theorem utf8DecodeFuel_cons (fuel b : Nat) (rest : List Nat) (acc : List Char) :
    utf8DecodeFuel (fuel + 1) (b :: rest) acc =
      match utf8Step b rest with
      | some pr => utf8DecodeFuel fuel (rest.drop pr.2) (Char.ofNat pr.1 :: acc)
      | none => none := by
  rw [utf8DecodeFuel]

theorem char_valid_toNat (c : Char) :
    c.toNat < 55296 ∨ (57343 < c.toNat ∧ c.toNat < 1114112) := c.valid

theorem utf8Step_1 (n : Nat) (h : n < 128) (rest : List Nat) :
    utf8Step n rest = some (n, 0) := by
  simp [utf8Step, h]

theorem utf8Step_2 (n : Nat) (h1 : 128 ≤ n) (h2 : n < 2048) (rest : List Nat) :
    utf8Step (192 + n / 64) ((128 + n % 64) :: rest) = some (n, 1) := by
  have e : (192 + n / 64 - 192) * 64 + (128 + n % 64 - 128) = n := by omega
  simp [utf8Step, show ¬(192 + n / 64 < 128) by omega,
    show ¬(192 + n / 64 < 194) by omega, show 192 + n / 64 < 224 by omega,
    show 128 ≤ 128 + n % 64 by omega, show 128 + n % 64 < 192 by omega]
  all_goals omega

theorem utf8Step_3 (n : Nat) (h1 : 2048 ≤ n) (h2 : n < 65536)
    (hval : n < 55296 ∨ 57343 < n) (rest : List Nat) :
    utf8Step (224 + n / 4096) ((128 + (n / 64) % 64) :: (128 + n % 64) :: rest) =
      some (n, 2) := by
  have e : (224 + n / 4096 - 224) * 4096 + (128 + n / 64 % 64 - 128) * 64 +
      (128 + n % 64 - 128) = n := by omega
  have hb2l : 128 ≤ 128 + n % 64 := by omega
  have hb2u : 128 + n % 64 < 192 := by omega
  rcases Nat.lt_or_ge n 4096 with hz | hz
  · simp [utf8Step, show ¬(224 + n / 4096 < 128) by omega,
      show ¬(224 + n / 4096 < 194) by omega, show ¬(224 + n / 4096 < 224) by omega,
      show 224 + n / 4096 < 240 by omega, show 224 + n / 4096 = 224 by omega,
      show 160 ≤ 128 + n / 64 % 64 by omega, show 128 + n / 64 % 64 < 192 by omega,
      hb2l, hb2u]
    all_goals omega
  · by_cases hs : n / 4096 = 13
    · have hvn : n < 55296 := by omega
      simp [utf8Step, show ¬(224 + n / 4096 < 128) by omega,
        show ¬(224 + n / 4096 < 194) by omega, show ¬(224 + n / 4096 < 224) by omega,
        show 224 + n / 4096 < 240 by omega, show ¬(224 + n / 4096 = 224) by omega,
        show 224 + n / 4096 = 237 by omega,
        show 128 ≤ 128 + n / 64 % 64 by omega, show 128 + n / 64 % 64 < 160 by omega,
        hb2l, hb2u]
      all_goals omega
    · simp [utf8Step, show ¬(224 + n / 4096 < 128) by omega,
        show ¬(224 + n / 4096 < 194) by omega, show ¬(224 + n / 4096 < 224) by omega,
        show 224 + n / 4096 < 240 by omega, show ¬(224 + n / 4096 = 224) by omega,
        show ¬(224 + n / 4096 = 237) by omega,
        show 128 ≤ 128 + n / 64 % 64 by omega, show 128 + n / 64 % 64 < 192 by omega,
        hb2l, hb2u]
      all_goals omega

theorem utf8Step_4 (n : Nat) (h1 : 65536 ≤ n) (h2 : n < 1114112) (rest : List Nat) :
    utf8Step (240 + n / 262144)
      ((128 + (n / 4096) % 64) :: (128 + (n / 64) % 64) :: (128 + n % 64) :: rest) =
      some (n, 3) := by
  have e : (240 + n / 262144 - 240) * 262144 + (128 + n / 4096 % 64 - 128) * 4096 +
      (128 + n / 64 % 64 - 128) * 64 + (128 + n % 64 - 128) = n := by omega
  have hb2l : 128 ≤ 128 + n / 64 % 64 := by omega
  have hb2u : 128 + n / 64 % 64 < 192 := by omega
  have hb3l : 128 ≤ 128 + n % 64 := by omega
  have hb3u : 128 + n % 64 < 192 := by omega
  have hcommon : ¬(240 + n / 262144 < 128) ∧ ¬(240 + n / 262144 < 194) ∧
      ¬(240 + n / 262144 < 224) ∧ ¬(240 + n / 262144 < 240) ∧
      240 + n / 262144 < 245 := by omega
  obtain ⟨hc1, hc2, hc3, hc4, hc5⟩ := hcommon
  rcases Nat.lt_or_ge n 262144 with hz | hz
  · simp [utf8Step, hc1, hc2, hc3, hc4, hc5, show 240 + n / 262144 = 240 by omega,
      show 144 ≤ 128 + n / 4096 % 64 by omega, show 128 + n / 4096 % 64 < 192 by omega,
      hb2l, hb2u, hb3l, hb3u]
    all_goals omega
  · by_cases hs : n / 262144 = 4
    · simp [utf8Step, hc1, hc2, hc3, hc4, hc5, show ¬(240 + n / 262144 = 240) by omega,
        show 240 + n / 262144 = 244 by omega,
        show 128 ≤ 128 + n / 4096 % 64 by omega, show 128 + n / 4096 % 64 < 144 by omega,
        hb2l, hb2u, hb3l, hb3u]
      all_goals omega
    · simp [utf8Step, hc1, hc2, hc3, hc4, hc5, show ¬(240 + n / 262144 = 240) by omega,
        show ¬(240 + n / 262144 = 244) by omega,
        show 128 ≤ 128 + n / 4096 % 64 by omega, show 128 + n / 4096 % 64 < 192 by omega,
        hb2l, hb2u, hb3l, hb3u]
      all_goals omega

/-- Decoding consumes one encoded character and one unit of fuel and
recovers the character. -/
theorem utf8Fuel_encChar (c : Char) (rest : List Nat) (acc : List Char) (fuel : Nat) :
    utf8DecodeFuel (fuel + 1) (utf8EncodeChar c.toNat ++ rest) acc =
      utf8DecodeFuel fuel rest (c :: acc) := by
  have hv := char_valid_toNat c
  have hofn : Char.ofNat c.toNat = c := Char.ofNat_toNat c
  rcases Nat.lt_or_ge c.toNat 128 with h1 | h1
  · rw [utf8EncodeChar, if_pos h1]
    simp only [List.cons_append, List.nil_append]
    rw [utf8DecodeFuel_cons, utf8Step_1 _ h1]
    simp [hofn]
  · rcases Nat.lt_or_ge c.toNat 2048 with h2 | h2
    · rw [utf8EncodeChar, if_neg (by omega), if_pos h2]
      simp only [List.cons_append, List.nil_append]
      rw [utf8DecodeFuel_cons, utf8Step_2 _ h1 h2]
      simp [hofn]
    · rcases Nat.lt_or_ge c.toNat 65536 with h3 | h3
      · rw [utf8EncodeChar, if_neg (by omega), if_neg (by omega), if_pos h3]
        simp only [List.cons_append, List.nil_append]
        rw [utf8DecodeFuel_cons, utf8Step_3 _ h2 h3 (by omega)]
        simp [hofn]
      · rw [utf8EncodeChar, if_neg (by omega), if_neg (by omega), if_neg (by omega)]
        simp only [List.cons_append, List.nil_append]
        rw [utf8DecodeFuel_cons, utf8Step_4 _ h3 (by omega)]
        simp [hofn]

/-- One unit of fuel per character decodes an encoded string, for any
accumulator and any surplus fuel. -/
theorem utf8Fuel_enc (cs : List Char) : ∀ (extra : Nat) (acc : List Char),
    utf8DecodeFuel (cs.length + extra) (utf8EncodeList cs) acc =
      some (acc.reverse ++ cs) := by
  induction cs with
  | nil =>
    intro extra acc
    simp [utf8EncodeList, utf8DecodeFuel_nil]
  | cons c cs ih =>
    intro extra acc
    rw [utf8EncodeList, List.flatMap_cons]
    rw [show c :: cs = [c] ++ cs from rfl]
    rw [show ([c] ++ cs).length + extra = (cs.length + extra) + 1 by simp; omega]
    rw [utf8Fuel_encChar]
    have h2 := ih extra (c :: acc)
    rw [utf8EncodeList] at h2
    rw [h2]
    simp

/-- Each character encodes to at least one byte. -/
theorem utf8EncodeChar_len_pos (n : Nat) : 1 ≤ (utf8EncodeChar n).length := by
  rw [utf8EncodeChar]
  split
  · simp
  · split
    · simp
    · split
      · simp
      · simp

theorem utf8EncodeList_len (cs : List Char) :
    cs.length ≤ (utf8EncodeList cs).length := by
  induction cs with
  | nil => simp [utf8EncodeList]
  | cons c cs ih =>
    rw [utf8EncodeList, List.flatMap_cons]
    have h2 : (utf8EncodeList cs).length ≤ (cs.flatMap fun c => utf8EncodeChar c.toNat).length := by
      rw [utf8EncodeList]
    have h1 := utf8EncodeChar_len_pos c.toNat
    simp only [List.length_cons, List.length_append]
    rw [utf8EncodeList] at ih
    omega

/-- bytes.decode('utf-8') inverts str.encode(). -/
theorem utf8_roundtrip (cs : List Char) :
    utf8DecodeList (utf8EncodeList cs) = some cs := by
  rw [utf8DecodeList]
  have hlen := utf8EncodeList_len cs
  rw [show (utf8EncodeList cs).length = cs.length + ((utf8EncodeList cs).length - cs.length) by omega]
  rw [utf8Fuel_enc]
  simp

/-- Every byte of an encoded character is a genuine byte. -/
theorem utf8EncodeChar_lt (n : Nat) (h : n < 1114112) :
    ∀ b ∈ utf8EncodeChar n, b < 256 := by
  intro b hb
  rw [utf8EncodeChar] at hb
  split at hb
  · simp at hb
    omega
  · split at hb
    · simp at hb
      omega
    · split at hb
      · simp at hb
        omega
      · simp at hb
        omega

/-- Every byte of an encoded string is a genuine byte. -/
theorem utf8EncodeList_lt (cs : List Char) : ∀ b ∈ utf8EncodeList cs, b < 256 := by
  intro b hb
  rw [utf8EncodeList] at hb
  rcases List.mem_flatMap.mp hb with ⟨c, _, hbc⟩
  have hv := char_valid_toNat c
  exact utf8EncodeChar_lt c.toNat (by omega) b hbc

/-! ### urllib.parse.quote with safe set empty

quote percent-encodes every UTF-8 byte whose character is not an ASCII
letter, digit or one of _ . - ~ (uppercase hex). -/

def alwaysSafe (c : Char) : Bool :=
  c.isAlpha || c.isDigit || c = '_' || c = '.' || c = '-' || c = '~'

def hexUpper (n : Nat) : Char :=
  if n < 10 then Char.ofNat (48 + n) else Char.ofNat (55 + n)

def percentEncodeChars (s : List Char) : List Char :=
  (utf8EncodeList s).flatMap fun b =>
    if b < 128 && alwaysSafe (Char.ofNat b) then [Char.ofNat b]
    else ['%', hexUpper (b / 16), hexUpper (b % 16)]

/-! ### Small string routines from the Python standard library -/

/-- re.sub of one HTML tag pattern: at a '<', a match needs a nonempty
run of non-'>' characters followed by '>'; on a match the whole tag is
dropped and scanning resumes after it, otherwise one character is kept
and scanning resumes at the next position. -/
def stripTagsFuel : Nat → List Char → List Char
  | 0, l => l
  | _, [] => []
  | fuel + 1, c :: rest =>
    if c = '<' then
      let run := rest.takeWhile (fun x => x ≠ '>')
      if 1 ≤ run.length ∧ run.length < rest.length then
        stripTagsFuel fuel (rest.drop (run.length + 1))
      else c :: stripTagsFuel fuel rest
    else c :: stripTagsFuel fuel rest

def stripTagsGo (l : List Char) : List Char := stripTagsFuel l.length l

/-- str.split with a one-character separator. -/
def pySplit1 (a : Char) : List Char → List Char → List (List Char)
  | [], acc => [acc.reverse]
  | c :: rest, acc =>
    if c = a then acc.reverse :: pySplit1 a rest []
    else pySplit1 a rest (c :: acc)

/-- str.split with a two-character separator. -/
def pySplit2 (a b : Char) : List Char → List Char → List (List Char)
  | [], acc => [acc.reverse]
  | [c], acc => [(c :: acc).reverse]
  | c :: c2 :: rest, acc =>
    if c = a ∧ c2 = b then acc.reverse :: pySplit2 a b rest []
    else pySplit2 a b (c2 :: rest) (c :: acc)

/-- Python substring containment (the in operator). -/
def containsSub : List Char → List Char → Bool
  | [], pat => pat.isEmpty
  | c :: rest, pat => pat.isPrefixOf (c :: rest) || containsSub rest pat

/-- str.replace with a nonempty pattern: left-to-right, non
overlapping. -/
def replaceAllFuel (pat repl : List Char) : Nat → List Char → List Char
  | 0, l => l
  | _, [] => []
  | fuel + 1, c :: rest =>
    if pat.isPrefixOf (c :: rest) && 1 ≤ pat.length then
      repl ++ replaceAllFuel pat repl fuel ((c :: rest).drop pat.length)
    else c :: replaceAllFuel pat repl fuel rest

def replaceAllGo (pat repl l : List Char) : List Char := replaceAllFuel pat repl l.length l

/-- Drop through the first occurrence of pat, returning the remainder
after it (used for the lazy tail of a DOTALL pattern). -/
def dropThroughFuel (pat : List Char) : Nat → List Char → Option (List Char)
  | 0, l => if pat.isPrefixOf l then some (l.drop pat.length) else none
  | fuel + 1, l =>
    if pat.isPrefixOf l then some (l.drop pat.length)
    else
      match l with
      | [] => none
      | _ :: rest => dropThroughFuel pat fuel rest

def dropThroughSub (l pat : List Char) : Option (List Char) :=
  dropThroughFuel pat l.length l

/-- The toast overlay opening pattern of the re.sub in the fetch
strategy (no closing angle bracket in the pattern itself). -/
def toastOpen : List Char := "<div id=\"toast\"".toList

def closeDiv : List Char := "</div>".toList

/-- re.sub of the toast container pattern with DOTALL: each leftmost
match runs from the opening pattern through the first subsequent
closing div tag and is deleted. -/
def subToastFuel : Nat → List Char → List Char
  | 0, l => l
  | _, [] => []
  | fuel + 1, c :: rest =>
    if toastOpen.isPrefixOf (c :: rest) then
      match dropThroughSub ((c :: rest).drop toastOpen.length) closeDiv with
      | some after => subToastFuel fuel after
      | none => c :: subToastFuel fuel rest
    else c :: subToastFuel fuel rest

def subToastGo (l : List Char) : List Char := subToastFuel l.length l

/-- Case-insensitive character comparison used by re.IGNORECASE on the
ASCII patterns of the source. -/
def lowerEq (a b : Char) : Bool := a.toLower == b.toLower

def ciIsPrefixOf : List Char → List Char → Bool
  | [], _ => true
  | _ :: _, [] => false
  | p :: ps, l :: ls => lowerEq p l && ciIsPrefixOf ps ls

/-- Split at the first case-insensitive occurrence of pat: returns the
part before the occurrence and the part after it. -/
def ciSplitFirst (pat : List Char) : List Char → Option (List Char × List Char)
  | [] => if ciIsPrefixOf pat [] then some ([], []) else none
  | c :: rest =>
    if ciIsPrefixOf pat (c :: rest) then some ([], (c :: rest).drop pat.length)
    else
      match ciSplitFirst pat rest with
      | some (pre, after) => some (c :: pre, after)
      | none => none

def bodyOpenPat : List Char := "<body".toList

def bodyClosePat : List Char := "</body>".toList

/-- One attempt of the body-extraction regex at the current position:
case-insensitive body open tag, a greedy run of non-'>' characters,
the closing '>', then the lazy DOTALL capture up to the first
case-insensitive closing body tag. -/
def bodyMatchAt (l : List Char) : Option (List Char) :=
  if ciIsPrefixOf bodyOpenPat l then
    let rest := l.drop bodyOpenPat.length
    let run := rest.takeWhile (fun x => x ≠ '>')
    if run.length < rest.length then
      let content := rest.drop (run.length + 1)
      match ciSplitFirst bodyClosePat content with
      | some (pre, _) => some pre
      | none => none
    else none
  else none

/-- re.search of the body-extraction pattern: leftmost successful
position wins. -/
def bodySearch : List Char → Option (List Char)
  | [] => none
  | c :: rest =>
    match bodyMatchAt (c :: rest) with
    | some r => some r
    | none => bodySearch rest

/-- str.strip() whitespace set (the ASCII whitespace characters). -/
def isPySpace (c : Char) : Bool :=
  c = ' ' || c = '\t' || c = '\n' || c = '\x0d' || c = Char.ofNat 11 || c = Char.ofNat 12

def pyStripChars (l : List Char) : List Char :=
  ((l.dropWhile isPySpace).reverse.dropWhile isPySpace).reverse

/-! ### Hashlink grammar

The two re.match patterns of decode_hashlink, with Python backtracking
semantics made explicit.

Reroute pattern: after the literal site prefix, a greedy run of
non-'#' characters and a '#' (deterministically the first '#'), then
a greedy run of non-'/' characters, an optional '/', an optional '#'
or '/', the data-URI marker literal, and a nonempty greedy dot-plus
capture (which stops at a newline). -/

def rerouteMarker : List Char := "data:text/html;charset=utf-8;base64,".toList

def dotPlus (cs : List Char) : Option (List Char) :=
  let run := cs.takeWhile (fun c => c ≠ '\n')
  if run.isEmpty then none else some run

def tryMarker (cs : List Char) : Option (List Char) :=
  if rerouteMarker.isPrefixOf cs then dotPlus (cs.drop rerouteMarker.length) else none

/-- The optional '#' or '/' before the marker: a '#' alternative is
tried first, then '/', then the empty alternative. -/
def afterOptHashSlash (cs : List Char) : Option (List Char) :=
  (match cs with
   | '#' :: rest => tryMarker rest
   | _ => none).orElse fun _ =>
  (match cs with
   | '/' :: rest => tryMarker rest
   | _ => none).orElse fun _ => tryMarker cs

/-- The optional '/' before that: consuming it is tried first. -/
def afterOptSlash (cs : List Char) : Option (List Char) :=
  (match cs with
   | '/' :: rest => afterOptHashSlash rest
   | _ => none).orElse fun _ => afterOptHashSlash cs

/-- The greedy non-'/' run: the longest run is tried first and the
position backtracks one character at a time. -/
def starNonSlash : List Char → Option (List Char)
  | [] => afterOptSlash []
  | c :: rest =>
    if c = '/' then afterOptSlash (c :: rest)
    else (starNonSlash rest).orElse fun _ => afterOptSlash (c :: rest)

def sitePrefix : List Char := "https://itty.bitty.site/".toList

/-- The reroute re.match of decode_hashlink: some payload when the
reroute shape is recognized, none otherwise (group 1 is the payload
substring). -/
def rerouteExtract (h : String) : Option String :=
  let cs := h.toList
  if sitePrefix.isPrefixOf cs then
    match (cs.drop sitePrefix.length).dropWhile (fun c => c ≠ '#') with
    | [] => none
    | _ :: afterHash => (starNonSlash afterHash).map fun l => String.mk l
  else none

def stdPrefix : List Char := "https://itty.bitty.site/#".toList

/-- The lazy scan of the standard pattern: the first "/?" separator
wins, the title may not contain a newline. -/
def findLazySep : List Char → List Char → Option (List Char × List Char)
  | '/' :: '?' :: tail, acc => some (acc.reverse, tail)
  | c :: rest, acc => if c = '\n' then none else findLazySep rest (c :: acc)
  | [], _ => none

/-- The standard-format re.match of decode_hashlink: some
(title, payload) when the standard shape is recognized. -/
def standardMatch (h : String) : Option (List Char × List Char) :=
  let cs := h.toList
  if stdPrefix.isPrefixOf cs then
    match findLazySep (cs.drop stdPrefix.length) [] with
    | some (title, tail) => some (title, tail.takeWhile (fun c => c ≠ '\n'))
    | none => none
  else none

/-! ### Composer (PvtPprInput subclasses and generate_hashlink)

The three input classes share PvtPprInput.sanitize: when HTML is not
allowed and a '<' occurs, tags are stripped; when links are not
allowed and the value starts with a link scheme prefix, the value is
cleared.  validate() re-runs sanitize and, for link inputs with a
nonempty value, checks the link pattern and raises ValueError on
failure.  Renders re-run sanitize, mutating the stored value each
time, exactly as the Python does. -/

def startsWithLit (v : List Char) (s : String) : Bool := s.toList.isPrefixOf v

def sanitizeValue (allowHtml allowLinks : Bool) (v : List Char) : List Char :=
  let v1 := if !allowHtml && containsSub v ['<'] then stripTagsGo v else v
  if !allowLinks &&
      (startsWithLit v1 "http" || startsWithLit v1 "ipfs" ||
       startsWithLit v1 "magnet" || startsWithLit v1 "base64") then []
  else v1

def sanitizeTitle (v : List Char) : List Char := sanitizeValue true false v

def sanitizeBody (v : List Char) : List Char := sanitizeValue true false v

def sanitizeLink (v : List Char) : List Char := sanitizeValue false true v

def noNl (l : List Char) : Bool := l.all (fun c => c ≠ '\n')

def isB64LinkChar (c : Char) : Bool :=
  c.isAlpha || c.isDigit || c = '+' || c = '/' || c = '='

/-- The LinkInput validate() pattern, matched against the whole value
(re.match with a final dollar anchor, which also accepts one trailing
newline). -/
def linkValidCore (l : List Char) : Bool :=
  (startsWithLit l "https://" && noNl (l.drop 8)) ||
  (startsWithLit l "http://" && noNl (l.drop 7)) ||
  (startsWithLit l "ipfs://" && noNl (l.drop 7)) ||
  (startsWithLit l "ipns://" && noNl (l.drop 7)) ||
  (startsWithLit l "magnet:" && noNl (l.drop 7)) ||
  (44 ≤ l.length && l.all isB64LinkChar)

def linkValid (l : List Char) : Bool :=
  linkValidCore l || (l.getLast? == some '\n' && linkValidCore l.dropLast)

/-- len(text.split()): the number of maximal nonempty runs of
non-whitespace characters. -/
def countWordsGo : List Char → Bool → Nat
  | [], _ => 0
  | c :: rest, inWord =>
    if isPySpace c then countWordsGo rest false
    else if inWord then countWordsGo rest true
    else 1 + countWordsGo rest true

/-- round(chars / 200): Python float round, ties to even (a tie is
exact at chars = 200 k + 100). -/
def pyRoundDiv200 (chars : Nat) : Nat :=
  let q := chars / 200
  let r := chars % 200
  if r < 100 then q
  else if 100 < r then q + 1
  else if q % 2 = 0 then q else q + 1

def natDigits (n : Nat) : List Char := (toString n).toList

/-- TitleTextInput.render on the value t1 left by validate(); yields
the rendered fragment and the value after render's own sanitize. -/
def titleRender (t1 : List Char) : List Char × List Char :=
  if t1.isEmpty then ("<h1>Title Goes Here</h1>".toList, t1)
  else
    let t2 := sanitizeTitle t1
    ("<h1>".toList ++ t2 ++ "</h1>".toList, t2)

/-- BodyTextField.render: count_stats sanitizes and strips tags, then
the f-string sanitizes once more. -/
def bodyRender (b1 : List Char) : List Char × List Char :=
  let b2 := sanitizeBody b1
  let text := stripTagsGo b2
  let chars := text.length
  let words := countWordsGo text false
  let rt := pyRoundDiv200 chars
  let b3 := sanitizeBody b2
  ("\n        <div>".toList ++ b3 ++ "</div>\n        <div>Chars: ".toList ++
     natDigits chars ++ " | Words: ".toList ++ natDigits words ++
     " | Reading Time: ".toList ++ natDigits rt ++ " min</div>\n        ".toList, b3)

/-- LinkInput.render: calls validate() again (sanitize plus pattern
check, ValueError possible), then sanitizes once more inside the
f-string when the value is nonempty. -/
def linkRender (l2 : List Char) : Except Unit (List Char × List Char) :=
  let l2b := sanitizeLink l2
  if !l2b.isEmpty && !linkValid l2b then .error ()
  else if l2b.isEmpty then .ok ([], l2b)
  else
    let l3 := sanitizeLink l2b
    .ok ("<img src=\"".toList ++ l3 ++ "\" alt=\"Embedded Link\" />".toList, l3)

/-- The Jinja template of the source with its substitutions (plain
substitution, no autoescape; the trailing template newline is dropped
because keep_trailing_newline is false). -/
def htmlDoc (btc tVal titleHtml bodyHtml linkHtml : List Char) : List Char :=
  "\n<!DOCTYPE html>\n<html>\n<head>\n    <meta charset=\"UTF-8\">\n    <meta name=\"btc_snapshot\" content=\"".toList
  ++ btc ++ "\">\n    <title>".toList ++ tVal ++ "</title>\n</head>\n<body>\n    ".toList
  ++ titleHtml ++ "\n    ".toList ++ bodyHtml ++ "\n    ".toList ++ linkHtml
  ++ "\n</body>\n</html>".toList

structure GenInputs where
  title : String
  body : String
  link : String

/-- The html_content string generate_hashlink renders (template on the
post-render input values). -/
def renderedDocument (inp : GenInputs) (btc : String) : List Char :=
  let t1 := sanitizeTitle inp.title.toList
  let tr := titleRender t1
  let br := bodyRender (sanitizeBody inp.body.toList)
  let l2 := sanitizeLink inp.link.toList
  let linkHtml := match linkRender l2 with
    | .ok pr => pr.1
    | .error _ => []
  htmlDoc btc.toList tr.2 tr.1 br.1 linkHtml

/-- generate_hashlink: validate and render the three inputs (a
ValueError from the link input propagates), render the template,
compress (the LZMA compressor at FORMAT_ALONE preset 9 is the external
capability lzComp), base64-encode with full padding, percent-encode
the title (or its placeholder) and build the hashlink URI. -/
def generate_hashlink (inp : GenInputs) (btc : String)
    (lzComp : List Nat → List Nat) : Except Unit String :=
  let l2 := sanitizeLink inp.link.toList
  if !l2.isEmpty && !linkValid l2 then .error ()
  else
    match linkRender l2 with
    | .error _ => .error ()
    | .ok _ =>
      let doc := renderedDocument inp btc
      let compressed := lzComp (utf8EncodeList doc)
      let b64 := b64EncodeChunks compressed
      let t1 := sanitizeTitle inp.title.toList
      let tFinal := (titleRender t1).2
      let titleEnc := percentEncodeChars
        (if tFinal.isEmpty then "Title Goes Here".toList else tFinal)
      .ok (String.mk (stdPrefix ++ titleEnc ++ ('/' :: '?' :: b64)))

/-! ### Decode cascade (decode_hashlink)

External capabilities are oracle parameters:

* lzDec is lzma.decompress(bytes, format=FORMAT_ALONE); none models a
  raised LZMAError (the only exception class the inner handler
  catches);
* jsCompile is execjs.compile of the embedded worker source: none
  models a raised execjs.Error (no JavaScript runtime);
* jsDec is ctx.eval of LZMA.decompress on the byte list; the execjs
  return value is a JS string, something Python's isinstance calls see
  as bytes, any other value (both isinstance checks fail and control
  falls out of the try block), or a raised execjs.Error;
* net is requests.get(url, timeout).

Python exceptions that no except clause of decode_hashlink names are
routed to the top-level handler (line 257 of the source), which turns
them into a returned failure with the current version label.  The
trace records one event per attempt, mirroring the source's log
records. -/

inductive JsOutcome where
  | str (s : List Char)
  | bytes (bs : List Nat)
  | other
  | err
deriving Repr, DecidableEq

inductive NetResp where
  | ok (status : Nat) (body : String)
  | connError
  | timeout (msg : String)
  | exn (msg : String)
deriving Repr, DecidableEq

structure Oracles where
  lzDec : List Nat → Option (List Nat)
  jsCompile : Option Unit
  jsDec : List Nat → JsOutcome
  net : String → Nat → NetResp

inductive PyExn where
  | unicodeDecodeError (bs : List Nat)
  | nonAsciiValueError
deriving Repr, DecidableEq

inductive FetchCause where
  | timeoutExn (msg : String)
  | indexError
  | otherExn (msg : String)
deriving Repr, DecidableEq

inductive FailKind where
  | rerouteBadB64
  | badStatus (code : Nat)
  | noConnection
  | extractFailed
  | fetchFailed (cause : FetchCause)
  | outerExn (e : PyExn)
deriving Repr, DecidableEq

inductive DecodeResult where
  | success (text : List Char) (version : String)
  | failure (kind : FailKind) (version : String)
deriving Repr, DecidableEq

inductive Ev where
  | reroute (ok : Bool)
  | s2b64 (padding : Nat) (ok : Bool)
  | s2lzma (padding : Nat) (skip : Nat) (ok : Bool)
  | s3start
  | s3b64 (payload : List Char) (padded : List Char) (ok : Bool)
  | jsCall (bytes : List Nat) (ok : Bool)
  | netGet (url : String) (timeoutSecs : Nat)
deriving Repr, DecidableEq

/-- The cascade strategy an event belongs to. -/
def stratOf : Ev → Nat
  | .reroute _ => 1
  | .s2b64 _ _ => 2
  | .s2lzma _ _ _ => 2
  | .s3start => 3
  | .s3b64 _ _ _ => 3
  | .jsCall _ _ => 3
  | .netGet _ _ => 4

/-- Whether an event is a successful decode attempt (the cascade
returns right after such an event). -/
def evOk : Ev → Bool
  | .reroute ok => ok
  | .s2lzma _ _ ok => ok
  | .jsCall _ ok => ok
  | _ => false

structure DecodeOut where
  res : DecodeResult
  trace : List Ev
deriving Repr, DecidableEq

def versionReroute : String := "PvtPpr v0 (reroute)"

def versionStandard : String := "IBS v1 / PvtPpr v1"

def versionJs : String := "PvtPpr v0 (JS worker)"

def versionFetch : String := "Fail-safe (official site)"

/-- Strategy 1 payload decode: b64decode then utf-8; the inner except
clause catches every exception, so both failure modes collapse to the
same terminal failure. -/
def rerouteDecode (payload : String) : Option (List Char) :=
  match b64decodeChars payload.toList with
  | .error _ => none
  | .ok bs => utf8DecodeList bs

/-- The inner skip-offset loop of strategy 2 for one padding attempt:
only LZMAError is caught and continues; a failing utf-8 decode of the
decompressed bytes escapes the loop as an uncaught exception. -/
def s2Skips (lz : List Nat → Option (List Nat)) (bytes : List Nat) (padding : Nat) :
    List Nat → List Ev × Option (Except PyExn (List Char))
  | [] => ([], none)
  | k :: ks =>
    match lz (bytes.drop k) with
    | none =>
      let pr := s2Skips lz bytes padding ks
      (.s2lzma padding k false :: pr.1, pr.2)
    | some d =>
      match utf8DecodeList d with
      | some text => ([.s2lzma padding k true], some (.ok text))
      | none => ([.s2lzma padding k true], some (.error (.unicodeDecodeError d)))

inductive S2Res where
  | success (text : List Char)
  | leak (e : PyExn)
  | exhausted
deriving Repr, DecidableEq

/-- The outer padding loop of strategy 2: only binascii.Error is
caught and continues; the ValueError b64decode raises on non-ASCII
input escapes as an uncaught exception. -/
def s2Paddings (lz : List Nat → Option (List Nat)) (b64part : List Char) :
    List Nat → List Ev × S2Res
  | [] => ([], .exhausted)
  | p :: ps =>
    match b64decodeChars (b64part ++ padChars p) with
    | .error .nonAscii => ([.s2b64 p false], .leak .nonAsciiValueError)
    | .error .binasciiError =>
      let pr := s2Paddings lz b64part ps
      (.s2b64 p false :: pr.1, pr.2)
    | .ok bytes =>
      match s2Skips lz bytes p [0, 5, 9, 13] with
      | (evs, some (.ok text)) => (.s2b64 p true :: evs, .success text)
      | (evs, some (.error e)) => (.s2b64 p true :: evs, .leak e)
      | (evs, none) =>
        let pr := s2Paddings lz b64part ps
        (.s2b64 p true :: evs ++ pr.1, pr.2)

/-- hashlink.split('/?')[-1]. -/
def lastSplitSlashQ (h : String) : List Char :=
  (pySplit2 '/' '?' h.toList []).getLastD []

/-- hashlink.split('#')[1]: none models the IndexError when the
hashlink has no '#'. -/
def hashSplitIndex1 (h : String) : Option (List Char) :=
  (pySplit1 '#' h.toList []).get? 1

def toastMarker : List Char := "<div id=\"toast\">".toList

def dismissOld : List Char := "<button onclick=\"dismiss()\">I understand</button>".toList

def dismissNew : List Char := "<script>dismiss();</script>".toList

/-- The persistent-storage overlay rewrite of the fetch strategy:
detection by the literal marker, button replacement, then removal of
the toast container by the DOTALL re.sub. -/
def toastRewrite (html : List Char) : List Char :=
  if containsSub html toastMarker then
    subToastGo (replaceAllGo dismissOld dismissNew html)
  else html

def redirectMarker : List Char :=
  "<script nomodule> location.href = \"/v1/\" + location.hash </script>".toList

/-- Body extraction from the (toast-rewritten) initial response,
reached when no redirect was taken or the retry path did not return. -/
def initialExtract (html1 : List Char) (gets : List Ev) : DecodeOut :=
  match bodySearch html1 with
  | some content => ⟨.success (pyStripChars content) versionFetch, gets⟩
  | none => ⟨.failure .extractFailed versionFetch, gets⟩

/-- Strategy 4, the IBS fetch fail-safe (lines 204-254 of the
source). -/
def ibsFetch (h : String) (o : Oracles) : DecodeOut :=
  match o.net h 10 with
  | .ok status body =>
    if status = 200 then
      let html1 := toastRewrite body.toList
      if containsSub html1 redirectMarker then
        match hashSplitIndex1 h with
        | none =>
          ⟨.failure (.fetchFailed .indexError) versionFetch, [.netGet h 10]⟩
        | some hp =>
          let retryUrl := String.mk ("https://itty.bitty.site/v1/#".toList ++ hp)
          match o.net retryUrl 10 with
          | .ok rstatus rbody =>
            if rstatus = 200 then
              match bodySearch (toastRewrite rbody.toList) with
              | some content =>
                ⟨.success (pyStripChars content) (versionFetch ++ " (via v1 retry)"),
                 [.netGet h 10, .netGet retryUrl 10]⟩
              | none => initialExtract html1 [.netGet h 10, .netGet retryUrl 10]
            else initialExtract html1 [.netGet h 10, .netGet retryUrl 10]
          | .connError =>
            ⟨.failure .noConnection versionFetch, [.netGet h 10, .netGet retryUrl 10]⟩
          | .timeout m =>
            ⟨.failure (.fetchFailed (.timeoutExn m)) versionFetch,
             [.netGet h 10, .netGet retryUrl 10]⟩
          | .exn m =>
            ⟨.failure (.fetchFailed (.otherExn m)) versionFetch,
             [.netGet h 10, .netGet retryUrl 10]⟩
      else initialExtract html1 [.netGet h 10]
    else ⟨.failure (.badStatus status) versionFetch, [.netGet h 10]⟩
  | .connError => ⟨.failure .noConnection versionFetch, [.netGet h 10]⟩
  | .timeout m => ⟨.failure (.fetchFailed (.timeoutExn m)) versionFetch, [.netGet h 10]⟩
  | .exn m => ⟨.failure (.fetchFailed (.otherExn m)) versionFetch, [.netGet h 10]⟩

/-- Strategy 3 (the JS worker fail-safe) followed by strategy 4.  The
payload is the standard match's group when it exists, otherwise
everything after the last '/?'.  Only execjs.Error and binascii.Error
are caught; a failing utf-8 decode of returned bytes, or the
ValueError on a non-ASCII payload, escapes to the top-level handler
and becomes a terminal failure with the JS version label. -/
def s3payload (h : String) (std : Option (List Char)) : List Char :=
  match std with
  | some bp => bp
  | none => lastSplitSlashQ h

def strategy3then4 (h : String) (std : Option (List Char)) (o : Oracles) : DecodeOut :=
  match o.jsCompile with
  | none =>
    let f := ibsFetch h o
    ⟨f.res, .s3start :: f.trace⟩
  | some _ =>
    let b64part := s3payload h std
    let padded := b64part ++ padChars ((4 - b64part.length % 4) % 4)
    match b64decodeChars padded with
    | .error .nonAscii =>
      ⟨.failure (.outerExn .nonAsciiValueError) versionJs,
       [.s3start, .s3b64 b64part padded false]⟩
    | .error .binasciiError =>
      let f := ibsFetch h o
      ⟨f.res, .s3start :: .s3b64 b64part padded false :: f.trace⟩
    | .ok bytes =>
      match o.jsDec bytes with
      | .str s =>
        ⟨.success s versionJs, [.s3start, .s3b64 b64part padded true, .jsCall bytes true]⟩
      | .bytes bs =>
        match utf8DecodeList bs with
        | some s =>
          ⟨.success s versionJs, [.s3start, .s3b64 b64part padded true, .jsCall bytes true]⟩
        | none =>
          ⟨.failure (.outerExn (.unicodeDecodeError bs)) versionJs,
           [.s3start, .s3b64 b64part padded true, .jsCall bytes true]⟩
      | .other =>
        let f := ibsFetch h o
        ⟨f.res, .s3start :: .s3b64 b64part padded true :: .jsCall bytes false :: f.trace⟩
      | .err =>
        let f := ibsFetch h o
        ⟨f.res, .s3start :: .s3b64 b64part padded true :: .jsCall bytes false :: f.trace⟩

/-- decode_hashlink (lines 136-259 of the source): the reroute match
commits (terminal on both outcomes); the standard match runs the
padding-and-skip loops of strategy 2; then the JS worker and the IBS
fetch. -/
def decode_hashlink (h : String) (o : Oracles) : DecodeOut :=
  match rerouteExtract h with
  | some payload =>
    match rerouteDecode payload with
    | some html => ⟨.success html versionReroute, [.reroute true]⟩
    | none => ⟨.failure .rerouteBadB64 versionReroute, [.reroute false]⟩
  | none =>
    match standardMatch h with
    | some pr =>
      match s2Paddings o.lzDec pr.2 [0, 1, 2, 3] with
      | (evs, .success text) => ⟨.success text versionStandard, evs⟩
      | (evs, .leak e) => ⟨.failure (.outerExn e) versionStandard, evs⟩
      | (evs, .exhausted) =>
        let f := strategy3then4 h (some pr.2) o
        ⟨f.res, evs ++ f.trace⟩
    | none => strategy3then4 h none o

/-! ### Trace structure lemmas

okStopped checks that everything after the first successful attempt
event is empty: the cascade stops at the first success. -/

def okStopped : List Ev → Bool
  | [] => true
  | e :: rest => if evOk e then rest.isEmpty else okStopped rest

theorem okStopped_all_false : ∀ t : List Ev, (∀ e ∈ t, evOk e = false) →
    okStopped t = true := by
  intro t
  induction t with
  | nil => intro _; rfl
  | cons e rest ih =>
    intro hall
    rw [okStopped, if_neg (by simp [hall e (by simp)])]
    exact ih fun e he => hall e (by simp [he])

theorem okStopped_append_false : ∀ t1 t2 : List Ev,
    (∀ e ∈ t1, evOk e = false) → okStopped (t1 ++ t2) = okStopped t2 := by
  intro t1 t2
  induction t1 with
  | nil => intro _; rfl
  | cons e rest ih =>
    intro hall
    rw [List.cons_append, okStopped, if_neg (by simp [hall e (by simp)])]
    exact ih fun e he => hall e (by simp [he])

/-- Every network-strategy trace is one GET or two GETs with the fixed
10-second timeout, so in particular it is short, all strategy 4, and
contains no success-attempt event. -/
theorem ibsFetch_trace (h : String) (o : Oracles) :
    (ibsFetch h o).trace = [.netGet h 10] ∨
      ∃ u, (ibsFetch h o).trace = [.netGet h 10, .netGet u 10] := by
  rw [ibsFetch]
  simp only [initialExtract]
  repeat' split
  all_goals simp

theorem ibsFetch_trace_facts (h : String) (o : Oracles) :
    (ibsFetch h o).trace.length ≤ 2 ∧
      ∀ e ∈ (ibsFetch h o).trace, stratOf e = 4 ∧ evOk e = false := by
  rcases ibsFetch_trace h o with ht | ⟨u, ht⟩ <;>
    rw [ht] <;>
    refine ⟨by simp, ?_⟩ <;>
    intro e he <;>
    simp only [List.mem_cons, List.mem_singleton, List.not_mem_nil, or_false] at he
  · cases he
    simp [stratOf, evOk]
  · rcases he with he | he <;> (cases he; simp [stratOf, evOk])

/-- Facts for a strategy-3 event prefix followed by a network tail. -/
theorem tail34_facts (pre ft : List Ev)
    (hpre : ∀ e ∈ pre, stratOf e = 3 ∧ evOk e = false)
    (hftlen : ft.length ≤ 2) (hft : ∀ e ∈ ft, stratOf e = 4 ∧ evOk e = false) :
    (pre ++ ft).length ≤ pre.length + 2 ∧
      (∀ e ∈ pre ++ ft, 3 ≤ stratOf e) ∧
      (pre ++ ft).Pairwise (fun a b => stratOf a ≤ stratOf b) ∧
      okStopped (pre ++ ft) = true := by
  refine ⟨by simp; omega, ?_, ?_, ?_⟩
  · intro e he
    rcases List.mem_append.mp he with he | he
    · exact le_of_eq (hpre e he).1.symm
    · have h4 := (hft e he).1
      omega
  · rw [List.pairwise_append]
    refine ⟨?_, ?_, ?_⟩
    · exact List.pairwise_of_forall_mem_list fun a ha b hb => by
        rw [(hpre a ha).1, (hpre b hb).1]
    · exact List.pairwise_of_forall_mem_list fun a ha b hb => by
        rw [(hft a ha).1, (hft b hb).1]
    · intro a ha b hb
      rw [(hpre a ha).1, (hft b hb).1]
      omega
  · rw [okStopped_append_false _ _ fun e he => (hpre e he).2]
    exact okStopped_all_false _ fun e he => (hft e he).2

/-- The strategy 3 + strategy 4 tail of the cascade: at most five
events, all of strategies 3 and 4, in order, stopping at the first
success. -/
theorem strategy3then4_trace (h : String) (std : Option (List Char)) (o : Oracles) :
    (strategy3then4 h std o).trace.length ≤ 5 ∧
      (∀ e ∈ (strategy3then4 h std o).trace, 3 ≤ stratOf e) ∧
      (strategy3then4 h std o).trace.Pairwise (fun a b => stratOf a ≤ stratOf b) ∧
      okStopped (strategy3then4 h std o).trace = true := by
  obtain ⟨hflen, hfall⟩ := ibsFetch_trace_facts h o
  rw [strategy3then4.eq_def]
  split
  · -- execjs.compile failed: one s3 event then the fetch
    have hres := tail34_facts [.s3start] (ibsFetch h o).trace
      (by intro e he; simp only [List.mem_singleton] at he; subst he; simp [stratOf, evOk])
      hflen hfall
    rw [List.singleton_append] at hres
    exact ⟨le_trans hres.1 (by simp), hres.2.1, hres.2.2.1, hres.2.2.2⟩
  · dsimp only
    split
    · -- non-ASCII payload: ValueError escapes, concrete two-event trace
      refine ⟨by simp, ?_, ?_, ?_⟩
      · intro e he
        simp only [List.mem_cons, List.mem_singleton, List.not_mem_nil, or_false] at he
        rcases he with rfl | rfl <;> simp [stratOf]
      · simp [List.pairwise_cons, stratOf]
      · simp [okStopped, evOk]
    · -- binascii.Error: two s3 events then the fetch
      have hres := tail34_facts
        [Ev.s3start, Ev.s3b64 (s3payload h std)
          (s3payload h std ++ padChars ((4 - (s3payload h std).length % 4) % 4)) false]
        (ibsFetch h o).trace
        (by
          intro e he
          simp only [List.mem_cons, List.mem_singleton, List.not_mem_nil, or_false] at he
          rcases he with rfl | rfl <;> simp [stratOf, evOk])
        hflen hfall
      rw [List.cons_append, List.singleton_append] at hres
      exact ⟨le_trans hres.1 (by simp), hres.2.1, hres.2.2.1, hres.2.2.2⟩
    · -- b64 ok: split on the worker outcome
      rename_i bytes heq
      split
      · refine ⟨by simp, ?_, ?_, ?_⟩
        · intro e he
          simp only [List.mem_cons, List.mem_singleton, List.not_mem_nil, or_false] at he
          rcases he with rfl | rfl | rfl <;> simp [stratOf]
        · simp [List.pairwise_cons, stratOf]
        · simp [okStopped, evOk]
      · split
        · refine ⟨by simp, ?_, ?_, ?_⟩
          · intro e he
            simp only [List.mem_cons, List.mem_singleton, List.not_mem_nil, or_false] at he
            rcases he with rfl | rfl | rfl <;> simp [stratOf]
          · simp [List.pairwise_cons, stratOf]
          · simp [okStopped, evOk]
        · refine ⟨by simp, ?_, ?_, ?_⟩
          · intro e he
            simp only [List.mem_cons, List.mem_singleton, List.not_mem_nil, or_false] at he
            rcases he with rfl | rfl | rfl <;> simp [stratOf]
          · simp [List.pairwise_cons, stratOf]
          · simp [okStopped, evOk]
      · have hres := tail34_facts
          [Ev.s3start, Ev.s3b64 (s3payload h std)
            (s3payload h std ++ padChars ((4 - (s3payload h std).length % 4) % 4)) true,
           Ev.jsCall bytes false]
          (ibsFetch h o).trace
          (by
            intro e he
            simp only [List.mem_cons, List.mem_singleton, List.not_mem_nil, or_false] at he
            rcases he with rfl | rfl | rfl <;> simp [stratOf, evOk])
          hflen hfall
        rw [List.cons_append, List.cons_append, List.singleton_append] at hres
        exact ⟨le_trans hres.1 (by simp), hres.2.1, hres.2.2.1, hres.2.2.2⟩
      · have hres := tail34_facts
          [Ev.s3start, Ev.s3b64 (s3payload h std)
            (s3payload h std ++ padChars ((4 - (s3payload h std).length % 4) % 4)) true,
           Ev.jsCall bytes false]
          (ibsFetch h o).trace
          (by
            intro e he
            simp only [List.mem_cons, List.mem_singleton, List.not_mem_nil, or_false] at he
            rcases he with rfl | rfl | rfl <;> simp [stratOf, evOk])
          hflen hfall
        rw [List.cons_append, List.cons_append, List.singleton_append] at hres
        exact ⟨le_trans hres.1 (by simp), hres.2.1, hres.2.2.1, hres.2.2.2⟩

/-- The skip loop: at most one event per offset, all strategy 2, no
success event unless it returns, and then it stops right there. -/
theorem s2Skips_trace (lz : List Nat → Option (List Nat)) (bytes : List Nat) (p : Nat) :
    ∀ ks : List Nat,
    (s2Skips lz bytes p ks).1.length ≤ ks.length ∧
      (∀ e ∈ (s2Skips lz bytes p ks).1, stratOf e = 2) ∧
      ((s2Skips lz bytes p ks).2 = none → ∀ e ∈ (s2Skips lz bytes p ks).1, evOk e = false) ∧
      ((s2Skips lz bytes p ks).2 ≠ none → okStopped (s2Skips lz bytes p ks).1 = true) := by
  intro ks
  induction ks with
  | nil => simp [s2Skips]
  | cons k ks ih =>
    rw [s2Skips]
    split
    · -- LZMAError: event recorded, loop continues
      obtain ⟨ih1, ih2, ih3, ih4⟩ := ih
      refine ⟨by simp; omega, ?_, ?_, ?_⟩
      · intro e he
        simp only [List.mem_cons] at he
        rcases he with rfl | he
        · simp [stratOf]
        · exact ih2 e he
      · intro hnone e he
        simp only at hnone
        simp only [List.mem_cons] at he
        rcases he with rfl | he
        · simp [evOk]
        · exact ih3 hnone e he
      · intro hsome
        simp only at hsome
        rw [okStopped, if_neg (by simp [evOk])]
        exact ih4 hsome
    · -- decompression succeeded: utf-8 decode decides between success
      -- and an uncaught UnicodeDecodeError, both terminal here
      split
      · refine ⟨by simp, ?_, ?_, ?_⟩
        · intro e he
          simp only [List.mem_singleton] at he
          subst he
          simp [stratOf]
        · intro hnone
          simp at hnone
        · intro _
          simp [okStopped, evOk]
      · refine ⟨by simp, ?_, ?_, ?_⟩
        · intro e he
          simp only [List.mem_singleton] at he
          subst he
          simp [stratOf]
        · intro hnone
          simp at hnone
        · intro _
          simp [okStopped, evOk]

/-- The padding loop: at most five events per padding attempt, all
strategy 2, no success event when it exhausts, stop at success
otherwise. -/
theorem s2Paddings_trace (lz : List Nat → Option (List Nat)) (b64part : List Char) :
    ∀ ps : List Nat,
    (s2Paddings lz b64part ps).1.length ≤ 5 * ps.length ∧
      (∀ e ∈ (s2Paddings lz b64part ps).1, stratOf e = 2) ∧
      ((s2Paddings lz b64part ps).2 = .exhausted →
        ∀ e ∈ (s2Paddings lz b64part ps).1, evOk e = false) ∧
      ((s2Paddings lz b64part ps).2 ≠ .exhausted →
        okStopped (s2Paddings lz b64part ps).1 = true) := by
  intro ps
  induction ps with
  | nil => simp [s2Paddings]
  | cons p ps ih =>
    rw [s2Paddings]
    split
    · -- ValueError leak on non-ASCII input: terminal
      refine ⟨by simp; omega, ?_, ?_, ?_⟩
      · intro e he
        simp only [List.mem_singleton] at he
        subst he
        simp [stratOf]
      · intro hx
        simp at hx
      · intro _
        simp [okStopped, evOk]
    · -- binascii.Error: event recorded, loop continues
      obtain ⟨ih1, ih2, ih3, ih4⟩ := ih
      refine ⟨by simp; omega, ?_, ?_, ?_⟩
      · intro e he
        simp only [List.mem_cons] at he
        rcases he with rfl | he
        · simp [stratOf]
        · exact ih2 e he
      · intro hex e he
        simp only at hex
        simp only [List.mem_cons] at he
        rcases he with rfl | he
        · simp [evOk]
        · exact ih3 hex e he
      · intro hnex
        simp only at hnex
        rw [okStopped, if_neg (by simp [evOk])]
        exact ih4 hnex
    · -- b64 decode ok: run the skip loop
      rename_i bytes heq
      obtain ⟨sk1, sk2, sk3, sk4⟩ := s2Skips_trace lz bytes p [0, 5, 9, 13]
      split
      · -- skip loop succeeded
        rename_i evs text hskip
        rw [hskip] at sk1 sk2 sk4
        simp only at sk1 sk2 sk4
        have sk1x : evs.length ≤ 4 := by simpa using sk1
        refine ⟨by simp; omega, ?_, ?_, ?_⟩
        · intro e he
          simp only [List.mem_cons] at he
          rcases he with rfl | he
          · simp [stratOf]
          · exact sk2 e he
        · intro hx
          simp at hx
        · intro _
          rw [okStopped, if_neg (by simp [evOk])]
          exact sk4 (by simp)
      · -- skip loop leaked a UnicodeDecodeError
        rename_i evs e0 hskip
        rw [hskip] at sk1 sk2 sk4
        simp only at sk1 sk2 sk4
        have sk1x : evs.length ≤ 4 := by simpa using sk1
        refine ⟨by simp; omega, ?_, ?_, ?_⟩
        · intro e he
          simp only [List.mem_cons] at he
          rcases he with rfl | he
          · simp [stratOf]
          · exact sk2 e he
        · intro hx
          simp at hx
        · intro _
          rw [okStopped, if_neg (by simp [evOk])]
          exact sk4 (by simp)
      · -- skip loop exhausted: continue with the next padding
        rename_i evs hskip
        rw [hskip] at sk1 sk2 sk3
        simp only at sk1 sk2 sk3
        have sk1x : evs.length ≤ 4 := by simpa using sk1
        obtain ⟨ih1, ih2, ih3, ih4⟩ := ih
        refine ⟨by simp; omega, ?_, ?_, ?_⟩
        · intro e he
          simp only [List.mem_cons, List.mem_append] at he
          rcases he with (rfl | he) | he
          · simp [stratOf]
          · exact sk2 e he
          · exact ih2 e he
        · intro hex e he
          simp only at hex
          simp only [List.mem_cons, List.mem_append] at he
          rcases he with (rfl | he) | he
          · simp [evOk]
          · exact sk3 (by simp) e he
          · exact ih3 hex e he
        · intro hnex
          simp only at hnex
          have hallf : ∀ e ∈ (Ev.s2b64 p true :: evs), evOk e = false := by
            intro e he
            simp only [List.mem_cons] at he
            rcases he with rfl | he
            · simp [evOk]
            · exact sk3 (by simp) e he
          rw [okStopped_append_false _ _ hallf]
          exact ih4 hnex

/-- Claim C3: on every input the cascade performs a bounded sequence
of attempts in nondecreasing strategy order, stops at the first
successful attempt, and returns exactly one result value (a decoded
document with a version label or a terminal failure), with every
Python exception either caught by an inner handler or converted to a
returned failure by the top-level handler -- never propagated. -/
theorem c3_cascade_total (h : String) (o : Oracles) :
    (decode_hashlink h o).trace.length ≤ 25 ∧
      (decode_hashlink h o).trace.Pairwise (fun a b => stratOf a ≤ stratOf b) ∧
      okStopped (decode_hashlink h o).trace = true ∧
      ((∃ d v, (decode_hashlink h o).res = .success d v) ∨
        (∃ k v, (decode_hashlink h o).res = .failure k v)) := by
  have hres : ∀ r : DecodeResult,
      (∃ d v, r = .success d v) ∨ (∃ k v, r = .failure k v) := by
    intro r
    rcases r with ⟨d, v⟩ | ⟨k, v⟩
    · exact .inl ⟨d, v, rfl⟩
    · exact .inr ⟨k, v, rfl⟩
  rw [decode_hashlink]
  split
  · split
    · exact ⟨by simp, by simp, by simp [okStopped], hres _⟩
    · exact ⟨by simp, by simp, by simp [okStopped, evOk], hres _⟩
  · split
    · -- standard shape: strategy 2, then possibly 3 and 4
      rename_i pr0 hstd0
      obtain ⟨p1, p2, p3, p4⟩ := s2Paddings_trace o.lzDec pr0.2 [0, 1, 2, 3]
      split
      · rename_i evs text hpad
        rw [hpad] at p1 p2 p4
        simp only at p1 p2 p4
        refine ⟨?_, List.pairwise_of_forall_mem_list
          (fun a ha b hb => by rw [p2 a ha, p2 b hb]), p4 (by simp), hres _⟩
        have hp1 : evs.length ≤ 20 := by simpa using p1
        simp only [List.length_cons]
        omega
      · rename_i evs e0 hpad
        rw [hpad] at p1 p2 p4
        simp only at p1 p2 p4
        refine ⟨?_, List.pairwise_of_forall_mem_list
          (fun a ha b hb => by rw [p2 a ha, p2 b hb]), p4 (by simp), hres _⟩
        have hp1 : evs.length ≤ 20 := by simpa using p1
        simp only [List.length_cons]
        omega
      · rename_i evs hpad
        rw [hpad] at p1 p2 p3
        simp only at p1 p2 p3
        obtain ⟨s1, s2, s3, s4⟩ := strategy3then4_trace h (some pr0.2) o
        refine ⟨?_, ?_, ?_, hres _⟩
        · simp only [List.length_append]
          have hp1 : evs.length ≤ 20 := by simpa using p1
          omega
        · rw [List.pairwise_append]
          refine ⟨List.pairwise_of_forall_mem_list
            (fun a ha b hb => by rw [p2 a ha, p2 b hb]), s3, ?_⟩
          intro a ha b hb
          rw [p2 a ha]
          exact le_trans (by omega) (s2 b hb)
        · rw [okStopped_append_false _ _ (p3 (by simp))]
          exact s4
    · -- unrecognized shape: strategies 3 and 4 only
      obtain ⟨s1, s2, s3, s4⟩ := strategy3then4_trace h none o
      exact ⟨le_trans s1 (by omega), s3, s4, hres _⟩

set_option maxRecDepth 10000

/-- Claim C1: when the reroute shape is recognized but its base64
payload fails to decode, decode_hashlink returns a terminal failure
immediately, carrying the reroute version label, and the trace shows
that strategies 2-4 were never attempted. -/
theorem c1_reroute_short_circuit (h : String) (o : Oracles) (payload : String)
    (hmatch : rerouteExtract h = some payload)
    (hfail : rerouteDecode payload = none) :
    decode_hashlink h o =
      ⟨.failure .rerouteBadB64 versionReroute, [.reroute false]⟩ := by
  simp [decode_hashlink, hmatch, hfail]

def oW : Oracles :=
  { lzDec := fun _ => none
    jsCompile := some ()
    jsDec := fun _ => .err
    net := fun _ _ => .connError }

theorem c1_reroute_short_circuit_witness :
    rerouteExtract "https://itty.bitty.site/#data:text/html;charset=utf-8;base64,aaaaa" =
        some "aaaaa" ∧
      rerouteDecode "aaaaa" = none ∧
      decode_hashlink "https://itty.bitty.site/#data:text/html;charset=utf-8;base64,aaaaa" oW =
        ⟨.failure .rerouteBadB64 versionReroute, [.reroute false]⟩ :=
  ⟨by decide, by decide,
    c1_reroute_short_circuit _ oW "aaaaa" (by decide) (by decide)⟩

/-- Claim C8: every GET of the network strategy carries the fixed
10-second timeout, and a connection failure, a non-200 status and a
timeout each yield a terminal failure, with the no-connectivity kind
distinct from the bad-status kind. -/
theorem c8_network_error_kinds (h : String) (o : Oracles) :
    (∀ e ∈ (ibsFetch h o).trace, ∃ u, e = .netGet u 10) ∧
      (o.net h 10 = .connError →
        (ibsFetch h o).res = .failure .noConnection versionFetch) ∧
      (∀ s b, o.net h 10 = .ok s b → s ≠ 200 →
        (ibsFetch h o).res = .failure (.badStatus s) versionFetch) ∧
      (∀ m, o.net h 10 = .timeout m →
        (ibsFetch h o).res = .failure (.fetchFailed (.timeoutExn m)) versionFetch) ∧
      (∀ s, FailKind.noConnection ≠ FailKind.badStatus s) := by
  refine ⟨?_, ?_, ?_, ?_, ?_⟩
  · intro e he
    rcases ibsFetch_trace h o with ht | ⟨u, ht⟩ <;> rw [ht] at he <;>
      simp only [List.mem_cons, List.mem_singleton, List.not_mem_nil, or_false] at he
    · exact he ▸ ⟨h, rfl⟩
    · rcases he with rfl | rfl
      · exact ⟨h, rfl⟩
      · exact ⟨u, rfl⟩
  · intro hconn
    simp [ibsFetch, hconn]
  · intro s b hok hs
    simp [ibsFetch, hok, hs]
  · intro m htime
    simp [ibsFetch, htime]
  · intro s hcontra
    cases hcontra

def oBadStatus : Oracles :=
  { lzDec := fun _ => none
    jsCompile := some ()
    jsDec := fun _ => .err
    net := fun _ _ => .ok 500 "server error page" }

def oTimeout : Oracles :=
  { lzDec := fun _ => none
    jsCompile := some ()
    jsDec := fun _ => .err
    net := fun _ _ => .timeout "HTTPSConnectionPool read timed out" }

theorem c8_network_error_kinds_witness :
    (ibsFetch "https://itty.bitty.site/#a/?b" oW).res =
        .failure .noConnection versionFetch ∧
      (ibsFetch "https://itty.bitty.site/#a/?b" oBadStatus).res =
        .failure (.badStatus 500) versionFetch ∧
      (ibsFetch "https://itty.bitty.site/#a/?b" oTimeout).res =
        .failure (.fetchFailed (.timeoutExn "HTTPSConnectionPool read timed out"))
          versionFetch :=
  ⟨(c8_network_error_kinds _ oW).2.1 rfl,
    (c8_network_error_kinds _ oBadStatus).2.2.1 500 "server error page" rfl (by decide),
    (c8_network_error_kinds _ oTimeout).2.2.2.1 _ rfl⟩

/-- Claim C9 counterexample: a hashlink whose fragment contains the
data-URI marker immediately after a "#title/?" separator (the shape
the claim and the spec's own example describe, and the shape the
Composer itself would emit) is NOT recognized by the reroute pattern:
the literal '?' cannot be consumed by any regex element between the
non-slash run and the marker.  The standard pattern matches instead.  -/
theorem c9_counterexample :
    rerouteExtract
        "https://itty.bitty.site/#t/?data:text/html;charset=utf-8;base64,aGVsbG8=" =
        none ∧
      standardMatch
        "https://itty.bitty.site/#t/?data:text/html;charset=utf-8;base64,aGVsbG8=" =
        some ("t".toList, "data:text/html;charset=utf-8;base64,aGVsbG8=".toList) :=
  ⟨by decide, by decide⟩

theorem rerouteMarker_eq : rerouteMarker =
    'd' :: 'a' :: 't' :: 'a' :: ':' :: 't' :: 'e' :: 'x' :: 't' :: '/' :: 'h' :: 't' ::
    'm' :: 'l' :: ';' :: 'c' :: 'h' :: 'a' :: 'r' :: 's' :: 'e' :: 't' :: '=' :: 'u' ::
    't' :: 'f' :: '-' :: '8' :: ';' :: 'b' :: 'a' :: 's' :: 'e' :: '6' :: '4' :: ',' ::
    [] := by decide

theorem tryMarker_marker (pay : List Char) :
    tryMarker (rerouteMarker ++ pay) = dotPlus pay := by
  rw [tryMarker,
    if_pos (List.isPrefixOf_iff_prefix.mpr (List.prefix_append rerouteMarker pay)),
    List.drop_left]

theorem dotPlus_full (pay : List Char) (hne : pay ≠ [])
    (hnl : ∀ c ∈ pay, c ≠ '\n') : dotPlus pay = some pay := by
  have ht : pay.takeWhile (fun c => c ≠ '\n') = pay := by
    induction pay with
    | nil => rfl
    | cons c rest ih =>
      rw [List.takeWhile_cons_of_pos (by simpa using hnl c (by simp))]
      by_cases hr : rest = []
      · simp [hr]
      · rw [ih hr fun c hc => hnl c (by simp [hc])]
  rw [dotPlus]
  simp only [ht]
  rw [if_neg (by simpa using hne)]

/-- The greedy non-slash run prefers the deepest position: a success
at the tail short-circuits every backtracking alternative. -/
theorem starNonSlash_append (l1 : List Char) (hA : ∀ c ∈ l1, c ≠ '/')
    {l2 : List Char} {r : List Char} (h2 : starNonSlash l2 = some r) :
    starNonSlash (l1 ++ l2) = some r := by
  induction l1 with
  | nil => simpa using h2
  | cons c l1 ih =>
    rw [List.cons_append, starNonSlash,
      if_neg (by simpa using hA c (by simp))]
    rw [ih fun c hc => hA c (by simp [hc])]
    rfl

/-- Starting exactly at the marker, the greedy run walks to the slash
inside the marker, every backtracking alternative on the way down
fails on the marker's literal characters, and the empty-run
alternative matches the marker and captures the dot-plus payload. -/
theorem starNonSlash_marker (pay : List Char) :
    starNonSlash (rerouteMarker ++ pay) = dotPlus pay := by
  rw [rerouteMarker_eq]
  simp only [List.cons_append, List.nil_append]
  simp [starNonSlash, afterOptSlash, afterOptHashSlash, tryMarker, rerouteMarker_eq,
    Option.orElse, List.isPrefixOf]

theorem afterOptHashSlash_marker (pay : List Char) :
    afterOptHashSlash (rerouteMarker ++ pay) = dotPlus pay := by
  rw [rerouteMarker_eq]
  simp only [List.cons_append]
  simp [afterOptHashSlash, tryMarker, rerouteMarker_eq, Option.orElse, List.isPrefixOf]

/-- The five separator shapes the reroute pattern accepts between the
non-slash run and the marker. -/
theorem starNonSlash_sep_marker (sep pay : List Char)
    (hsep : sep = [] ∨ sep = ['/'] ∨ sep = ['#'] ∨ sep = ['/', '#'] ∨ sep = ['/', '/'])
    (hne : pay ≠ []) (hnl : ∀ c ∈ pay, c ≠ '\n') :
    starNonSlash (sep ++ (rerouteMarker ++ pay)) = some pay := by
  have hd : dotPlus pay = some pay := dotPlus_full pay hne hnl
  rcases hsep with rfl | rfl | rfl | rfl | rfl
  · rw [List.nil_append, starNonSlash_marker, hd]
  · rw [List.singleton_append, starNonSlash, if_pos rfl]
    simp [afterOptSlash, afterOptHashSlash_marker, hd, Option.orElse]
  · rw [List.singleton_append, starNonSlash, if_neg (by decide)]
    rw [starNonSlash_marker, hd]
    rfl
  · rw [List.cons_append, List.singleton_append, starNonSlash, if_pos rfl]
    simp [afterOptSlash, afterOptHashSlash, tryMarker_marker, hd, Option.orElse]
  · rw [List.cons_append, List.singleton_append, starNonSlash, if_pos rfl]
    simp [afterOptSlash, afterOptHashSlash, tryMarker_marker, hd, Option.orElse,
      tryMarker, rerouteMarker_eq, List.isPrefixOf]

/-- Claim C9 (amended): the reroute grammar accepts the marker only
immediately after a separator of the form hash, non-slash run,
optional slash, optional hash-or-slash; the payload is the maximal
nonempty run of non-newline characters after the marker, verbatim;
extraction is a total function, and a non-matching input yields the
no-match value none rather than a defect. -/
theorem c9_amended_reroute_grammar (A sep pay : List Char)
    (hA : ∀ c ∈ A, c ≠ '/')
    (hsep : sep = [] ∨ sep = ['/'] ∨ sep = ['#'] ∨ sep = ['/', '#'] ∨ sep = ['/', '/'])
    (hne : pay ≠ []) (hnl : ∀ c ∈ pay, c ≠ '\n') :
    rerouteExtract (String.mk ("https://itty.bitty.site/#".toList ++
        (A ++ (sep ++ (rerouteMarker ++ pay))))) = some (String.mk pay) ∧
      ∀ s : String, rerouteExtract s = none ∨ ∃ p, rerouteExtract s = some p := by
  constructor
  · have hpfx : "https://itty.bitty.site/#".toList = sitePrefix ++ ['#'] := by decide
    have hlist : (String.mk ("https://itty.bitty.site/#".toList ++
        (A ++ (sep ++ (rerouteMarker ++ pay))))).toList =
        sitePrefix ++ ('#' :: (A ++ (sep ++ (rerouteMarker ++ pay)))) := by
      rw [show (String.mk ("https://itty.bitty.site/#".toList ++
          (A ++ (sep ++ (rerouteMarker ++ pay))))).toList =
          "https://itty.bitty.site/#".toList ++ (A ++ (sep ++ (rerouteMarker ++ pay)))
          from rfl, hpfx]
      simp
    rw [rerouteExtract]
    simp only [hlist]
    rw [if_pos (List.isPrefixOf_iff_prefix.mpr (List.prefix_append _ _))]
    rw [List.drop_left]
    rw [List.dropWhile_cons_of_neg (by simp)]
    simp only []
    rw [starNonSlash_append A hA (starNonSlash_sep_marker sep pay hsep hne hnl)]
    rfl
  · intro s
    cases hx : rerouteExtract s
    · exact .inl rfl
    · exact .inr ⟨_, rfl⟩

/-- The sixteen padding-skip combinations of strategy 2 in the
source's nested iteration order: padding outer, skip inner (a
definition following the spec's words, to compare with the source's
loop). -/
def combos : List (Nat × Nat) :=
  [0, 1, 2, 3].flatMap fun p => [0, 5, 9, 13].map fun k => (p, k)

/-- One combination of the spec: transport-decode with the given
padding count, then compression-decode at the given skip offset;
yields the decompressed bytes when both steps succeed. -/
def comboAttempt (lz : List Nat → Option (List Nat)) (bp : List Char)
    (pk : Nat × Nat) : Option (List Nat) :=
  match b64decodeChars (bp ++ padChars pk.1) with
  | .ok bytes => lz (bytes.drop pk.2)
  | .error _ => none

/-- The first of the sixteen ordered combinations on which both
transport decode and compression decode succeed. -/
def s2First (lz : List Nat → Option (List Nat)) (bp : List Char) :
    Option ((Nat × Nat) × List Nat) :=
  combos.findSome? fun pk => (comboAttempt lz bp pk).map fun bs => (pk, bs)

theorem findSome?_group {α : Type} (ps ks : List Nat) (f : Nat × Nat → Option α) :
    (ps.flatMap fun p => ks.map fun k => (p, k)).findSome? f =
      ps.findSome? fun p => ks.findSome? fun k => f (p, k) := by
  induction ps with
  | nil => simp
  | cons p ps ih =>
    rw [List.flatMap_cons, List.findSome?_append, List.findSome?_map, ih,
      List.findSome?_cons]
    cases hk : (ks.findSome? fun k => f (p, k)) with
    | some b =>
      have hk2 : ks.findSome? (f ∘ fun k => (p, k)) = some b := hk
      simp [hk2]
    | none =>
      have hk2 : ks.findSome? (f ∘ fun k => (p, k)) = none := hk
      simp [hk2]

/-- a2b_base64 never raises the non-ASCII ValueError. -/
theorem a2bRun_no_nonAscii : ∀ (cs : List Char) (q l p : Nat) (acc : List Nat),
    a2bRun cs q l p acc ≠ .error .nonAscii := by
  intro cs
  induction cs with
  | nil =>
    intro q l p acc
    rw [a2bRun]
    split <;> simp
  | cons c rest ih =>
    intro q l p acc
    rw [a2bRun]
    split
    · split
      · split
        · simp
        · exact ih _ _ _ _
      · exact ih _ _ _ _
    · split
      · exact ih _ _ _ _
      · split <;> exact ih _ _ _ _

/-- On an all-ASCII transport string every b64decode failure is a
binascii.Error (the kind strategy 2 catches). -/
theorem b64decode_ascii_no_value_error (bp : List Char)
    (hA : ∀ c ∈ bp, c.toNat < 128) (p : Nat) :
    b64decodeChars (bp ++ padChars p) ≠ .error .nonAscii := by
  rw [b64decodeChars]
  rw [if_neg ?hascii]
  case hascii =>
    simp only [List.any_append, Bool.or_eq_true, List.any_eq_true, not_or]
    constructor
    · rintro ⟨c, hc, hge⟩
      have := hA c hc
      simp at hge
      omega
    · rintro ⟨c, hc, hge⟩
      rw [padChars] at hc
      have hceq := List.eq_of_mem_replicate hc
      subst hceq
      simp at hge
  exact a2bRun_no_nonAscii _ _ _ _ _

theorem findSome?_option_map {α β : Type} (g : Nat → Option α) (f : α → β) :
    ∀ l : List Nat,
    l.findSome? (fun x => (g x).map f) = (l.findSome? g).map f := by
  intro l
  induction l with
  | nil => simp
  | cons a l ih =>
    rw [List.findSome?_cons, List.findSome?_cons]
    cases hg : g a with
    | some b => simp [hg]
    | none => simp [hg, ih]

/-- The source's skip loop is the ordered first-success search over
the skip offsets. -/
theorem s2Skips_find (lz : List Nat → Option (List Nat)) (bytes : List Nat) (p : Nat) :
    ∀ ks : List Nat,
    ((ks.findSome? fun k => (lz (bytes.drop k)).map fun d => ((p, k), d)) = none →
      (s2Skips lz bytes p ks).2 = none) ∧
    (∀ pk d, (ks.findSome? fun k => (lz (bytes.drop k)).map fun d => ((p, k), d)) =
        some (pk, d) →
      (s2Skips lz bytes p ks).2 = some (match utf8DecodeList d with
        | some text => .ok text
        | none => .error (.unicodeDecodeError d))) := by
  intro ks
  induction ks with
  | nil =>
    constructor
    · intro _
      simp [s2Skips]
    · intro pk d hfind
      simp at hfind
  | cons k0 ks ih =>
    obtain ⟨ih1, ih2⟩ := ih
    cases hlz : lz (bytes.drop k0) with
    | none =>
      rw [List.findSome?_cons]
      constructor
      · intro hfind
        rw [hlz] at hfind
        simp only [Option.map_none'] at hfind
        rw [s2Skips, hlz]
        exact ih1 hfind
      · intro pk d hfind
        rw [hlz] at hfind
        simp only [Option.map_none'] at hfind
        rw [s2Skips, hlz]
        exact ih2 pk d hfind
    | some d0 =>
      rw [List.findSome?_cons]
      constructor
      · intro hfind
        rw [hlz] at hfind
        simp at hfind
      · intro pk d hfind
        rw [hlz] at hfind
        simp only [Option.map_some', Option.some.injEq, Prod.mk.injEq] at hfind
        obtain ⟨h1, h2⟩ := hfind
        subst h2
        rw [s2Skips, hlz]
        cases hu : utf8DecodeList d0 <;> simp [hu]

/-- The source's padding loop over an all-ASCII transport string is
the ordered first-success search over the sixteen combinations, with
the UTF-8 decode of the winning bytes deciding between a returned
document and an uncaught UnicodeDecodeError. -/
theorem s2Paddings_find (lz : List Nat → Option (List Nat)) (bp : List Char)
    (hA : ∀ c ∈ bp, c.toNat < 128) :
    ∀ ps : List Nat,
    ((ps.findSome? fun p => [0, 5, 9, 13].findSome? fun k =>
        (comboAttempt lz bp (p, k)).map fun bs => ((p, k), bs)) = none →
      (s2Paddings lz bp ps).2 = .exhausted) ∧
    (∀ pk d, (ps.findSome? fun p => [0, 5, 9, 13].findSome? fun k =>
        (comboAttempt lz bp (p, k)).map fun bs => ((p, k), bs)) = some (pk, d) →
      (s2Paddings lz bp ps).2 = (match utf8DecodeList d with
        | some text => S2Res.success text
        | none => S2Res.leak (.unicodeDecodeError d))) := by
  intro ps
  induction ps with
  | nil =>
    constructor
    · intro _
      simp [s2Paddings]
    · intro pk d hfind
      simp at hfind
  | cons p ps ih =>
    obtain ⟨ih1, ih2⟩ := ih
    cases hb : b64decodeChars (bp ++ padChars p) with
    | error e =>
      have hnb : e = .binasciiError := by
        cases e
        · exact absurd hb (b64decode_ascii_no_value_error bp hA p)
        · rfl
      subst hnb
      have hin : ([0, 5, 9, 13].findSome? fun k =>
          (comboAttempt lz bp (p, k)).map fun bs => ((p, k), bs)) = none := by
        simp [comboAttempt, hb, List.findSome?]
      rw [List.findSome?_cons, hin]
      constructor
      · intro hfind
        rw [s2Paddings, hb]
        exact ih1 hfind
      · intro pk d hfind
        rw [s2Paddings, hb]
        exact ih2 pk d hfind
    | ok bytes =>
      have hin : (fun k => (comboAttempt lz bp (p, k)).map fun bs => ((p, k), bs)) =
          fun k => (lz (bytes.drop k)).map fun d => ((p, k), d) :=
        funext fun k => by simp [comboAttempt, hb]
      obtain ⟨sf1, sf2⟩ := s2Skips_find lz bytes p [0, 5, 9, 13]
      rcases hs : s2Skips lz bytes p [0, 5, 9, 13] with ⟨evs, r⟩
      rw [List.findSome?_cons, hin]
      cases hsk : [0, 5, 9, 13].findSome? fun k =>
          (lz (bytes.drop k)).map fun d => ((p, k), d) with
      | none =>
        have h2 := sf1 hsk
        rw [hs] at h2
        simp only at h2
        subst h2
        constructor
        · intro hfind
          simp only [s2Paddings, hb, hs]
          exact ih1 hfind
        · intro pk d hfind
          simp only [s2Paddings, hb, hs]
          exact ih2 pk d hfind
      | some pkd =>
        rcases pkd with ⟨pk0, d0⟩
        have h2 := sf2 pk0 d0 hsk
        rw [hs] at h2
        simp only at h2
        subst h2
        constructor
        · intro hfind
          cases hfind
        · intro pk d hfind
          simp only [Option.some.injEq, Prod.mk.injEq] at hfind
          obtain ⟨h1, h3⟩ := hfind
          subst h3
          simp only [s2Paddings, hb, hs]
          cases hu : utf8DecodeList d0 <;> simp [hu]

theorem s2First_nested (lz : List Nat → Option (List Nat)) (bp : List Char) :
    s2First lz bp = [0, 1, 2, 3].findSome? fun p => [0, 5, 9, 13].findSome? fun k =>
      (comboAttempt lz bp (p, k)).map fun bs => ((p, k), bs) := by
  rw [s2First, combos, findSome?_group]

/-- decode_hashlink on a standard-shape hashlink is decided by the
padding loop's outcome. -/
theorem decode_standard_s2 (h : String) (o : Oracles) (pr : List Char × List Char)
    (hrr : rerouteExtract h = none) (hstd : standardMatch h = some pr) :
    decode_hashlink h o = (match s2Paddings o.lzDec pr.2 [0, 1, 2, 3] with
      | (evs, .success text) => ⟨.success text versionStandard, evs⟩
      | (evs, .leak e) => ⟨.failure (.outerExn e) versionStandard, evs⟩
      | (evs, .exhausted) =>
        ⟨(strategy3then4 h (some pr.2) o).res,
          evs ++ (strategy3then4 h (some pr.2) o).trace⟩) := by
  simp only [decode_hashlink, hrr, hstd]

/-- Strategy 3 is always entered through its phase marker. -/
theorem s3start_mem (h : String) (std : Option (List Char)) (o : Oracles) :
    Ev.s3start ∈ (strategy3then4 h std o).trace := by
  rw [strategy3then4.eq_def]
  dsimp only
  repeat' split
  all_goals simp

/-- The network strategy always issues its first GET to the hashlink
itself. -/
theorem netGet_mem (h : String) (o : Oracles) :
    Ev.netGet h 10 ∈ (ibsFetch h o).trace := by
  rcases ibsFetch_trace h o with ht | ⟨u, ht⟩ <;> rw [ht] <;> simp

/-- Claim C4 counterexample: on a standard-shape hashlink whose
transport payload contains a non-ASCII character, every one of the
sixteen combinations fails, yet strategy 2 does not fall through to
strategy 3: b64decode raises ValueError, which the loop's
binascii.Error handler does not catch, and the cascade ends in a
terminal failure with no strategy-3 attempt. -/
theorem c4_counterexample :
    standardMatch (String.mk ("https://itty.bitty.site/#t/?".toList ++ [Char.ofNat 233])) =
        some ("t".toList, [Char.ofNat 233]) ∧
      s2First oW.lzDec [Char.ofNat 233] = none ∧
      (∀ e ∈ (decode_hashlink
          (String.mk ("https://itty.bitty.site/#t/?".toList ++ [Char.ofNat 233])) oW).trace,
        stratOf e ≠ 3) ∧
      (decode_hashlink
          (String.mk ("https://itty.bitty.site/#t/?".toList ++ [Char.ofNat 233])) oW).res =
        .failure (.outerExn .nonAsciiValueError) versionStandard :=
  ⟨by decide, by decide, by decide, by decide⟩

/-- Claim C4 (amended): on an all-ASCII transport payload, strategy 2
realizes the ordered first-success search over the sixteen
padding-skip combinations (padding outer, skip inner): the first
combination on which base64 and LZMA both succeed yields its document
(when the decompressed bytes decode as UTF-8) with the standard
label, and if all sixteen combinations fail the cascade falls through
to strategy 3. -/
theorem c4_amended_s2_combinations (h : String) (o : Oracles)
    (pr : List Char × List Char)
    (hrr : rerouteExtract h = none) (hstd : standardMatch h = some pr)
    (hA : ∀ c ∈ pr.2, c.toNat < 128) :
    (∀ pk bytes text, s2First o.lzDec pr.2 = some (pk, bytes) →
        utf8DecodeList bytes = some text →
        (decode_hashlink h o).res = .success text versionStandard) ∧
      (s2First o.lzDec pr.2 = none → Ev.s3start ∈ (decode_hashlink h o).trace) := by
  obtain ⟨pf1, pf2⟩ := s2Paddings_find o.lzDec pr.2 hA [0, 1, 2, 3]
  constructor
  · intro pk bytes text hfirst hutf
    rw [s2First_nested] at hfirst
    have h2 := pf2 pk bytes hfirst
    rw [hutf] at h2
    rw [decode_standard_s2 h o pr hrr hstd]
    rcases hp : s2Paddings o.lzDec pr.2 [0, 1, 2, 3] with ⟨evs, r⟩
    rw [hp] at h2
    simp only at h2
    subst h2
    simp
  · intro hnone
    rw [s2First_nested] at hnone
    have h2 := pf1 hnone
    rw [decode_standard_s2 h o pr hrr hstd]
    rcases hp : s2Paddings o.lzDec pr.2 [0, 1, 2, 3] with ⟨evs, r⟩
    rw [hp] at h2
    simp only at h2
    subst h2
    simp only []
    rw [List.mem_append]
    exact .inr (s3start_mem h (some pr.2) o)

def oHi : Oracles :=
  { lzDec := fun bs => if bs = [0, 0, 0] then some [104, 105] else none
    jsCompile := some ()
    jsDec := fun _ => .err
    net := fun _ _ => .connError }

theorem c4_amended_s2_combinations_witness :
    (decode_hashlink "https://itty.bitty.site/#t/?AAAA" oHi).res =
        .success "hi".toList versionStandard ∧
      Ev.s3start ∈ (decode_hashlink "https://itty.bitty.site/#t/?AAAA" oW).trace :=
  ⟨(c4_amended_s2_combinations "https://itty.bitty.site/#t/?AAAA" oHi
      ("t".toList, "AAAA".toList) (by decide) (by decide) (by decide)).1
      (0, 0) [104, 105] "hi".toList (by decide) (by decide),
    (c4_amended_s2_combinations "https://itty.bitty.site/#t/?AAAA" oW
      ("t".toList, "AAAA".toList) (by decide) (by decide) (by decide)).2 (by decide)⟩

def oLeak : Oracles :=
  { lzDec := fun bs => if bs = [0, 0, 0] then some [128] else none
    jsCompile := some ()
    jsDec := fun _ => .err
    net := fun _ _ => .connError }

/-- Claim C5 counterexample: when a combination decompresses
successfully but the resulting bytes are not valid UTF-8, the
UnicodeDecodeError escapes the padding loop's lzma-only handler and the
cascade ends there, carrying the standard version label; strategy 3 is
never attempted, contradicting the claim that control always falls
through to strategy 3 after strategy 2. -/
theorem c5_counterexample :
    (decode_hashlink "https://itty.bitty.site/#t/?AAAA" oLeak).res =
        .failure (.outerExn (.unicodeDecodeError [128])) versionStandard ∧
      ∀ e ∈ (decode_hashlink "https://itty.bitty.site/#t/?AAAA" oLeak).trace,
        stratOf e ≤ 2 :=
  ⟨by decide, by decide⟩

/-- Claim C5 (amended): on a standard-shape hashlink, control reaches
strategy 3 exactly when strategy 2 exhausts its combinations without a
binascii/lzma success: (i) exhaustion leads into strategy 3; (ii) a
UTF-8 leak inside strategy 2 is terminal with the standard label and no
strategy-3 or strategy-4 event; (iii) if the JS runtime is unavailable
(execjs compile failure, swallowed) strategy 3 falls through to the
network strategy; (iv) likewise when the JS-route base64 decode raises
binascii.Error. -/
theorem c5_amended_propagation (h : String) (o : Oracles)
    (pr : List Char × List Char)
    (hrr : rerouteExtract h = none) (hstd : standardMatch h = some pr) :
    ((s2Paddings o.lzDec pr.2 [0, 1, 2, 3]).2 = .exhausted →
        Ev.s3start ∈ (decode_hashlink h o).trace) ∧
      (∀ e0, (s2Paddings o.lzDec pr.2 [0, 1, 2, 3]).2 = .leak e0 →
        (decode_hashlink h o).res = .failure (.outerExn e0) versionStandard ∧
          ∀ e ∈ (decode_hashlink h o).trace, stratOf e ≤ 2) ∧
      (∀ std, o.jsCompile = none →
        Ev.netGet h 10 ∈ (strategy3then4 h std o).trace) ∧
      (∀ std, o.jsCompile = some () →
        b64decodeChars (s3payload h std ++
            padChars ((4 - (s3payload h std).length % 4) % 4)) =
          .error .binasciiError →
        Ev.netGet h 10 ∈ (strategy3then4 h std o).trace) := by
  refine ⟨?_, ?_, ?_, ?_⟩
  · intro hex
    rw [decode_standard_s2 h o pr hrr hstd]
    rcases hp : s2Paddings o.lzDec pr.2 [0, 1, 2, 3] with ⟨evs, r⟩
    rw [hp] at hex
    simp only at hex
    subst hex
    simp only []
    rw [List.mem_append]
    exact .inr (s3start_mem h (some pr.2) o)
  · intro e0 hleak
    rw [decode_standard_s2 h o pr hrr hstd]
    rcases hp : s2Paddings o.lzDec pr.2 [0, 1, 2, 3] with ⟨evs, r⟩
    rw [hp] at hleak
    simp only at hleak
    subst hleak
    refine ⟨rfl, ?_⟩
    intro e he
    have := (s2Paddings_trace o.lzDec pr.2 [0, 1, 2, 3]).2.1 e
    rw [hp] at this
    have h2 := this he
    omega
  · intro std hjc
    rw [strategy3then4.eq_def]
    dsimp only
    rw [hjc]
    simp only [List.mem_cons]
    exact .inr (netGet_mem h o)
  · intro std hjc hb
    rw [strategy3then4.eq_def]
    dsimp only
    rw [hjc, hb]
    simp only [List.mem_cons]
    exact .inr (.inr (netGet_mem h o))

theorem c5_amended_propagation_witness :
    Ev.s3start ∈ (decode_hashlink "https://itty.bitty.site/#t/?AAAA" oW).trace ∧
      ((decode_hashlink "https://itty.bitty.site/#t/?AAAA" oLeak).res =
          .failure (.outerExn (.unicodeDecodeError [128])) versionStandard ∧
        ∀ e ∈ (decode_hashlink "https://itty.bitty.site/#t/?AAAA" oLeak).trace,
          stratOf e ≤ 2) :=
  ⟨(c5_amended_propagation "https://itty.bitty.site/#t/?AAAA" oW
      ("t".toList, "AAAA".toList) (by decide) (by decide)).1 (by decide),
    (c5_amended_propagation "https://itty.bitty.site/#t/?AAAA" oLeak
      ("t".toList, "AAAA".toList) (by decide) (by decide)).2.1
      (.unicodeDecodeError [128]) (by decide)⟩

theorem c9_amended_reroute_grammar_witness :
    rerouteExtract (String.mk ("https://itty.bitty.site/#".toList ++
        ("t".toList ++ (['/'] ++ (rerouteMarker ++ "aGVsbG8=".toList))))) =
      some (String.mk "aGVsbG8=".toList) :=
  (c9_amended_reroute_grammar "t".toList ['/'] "aGVsbG8=".toList
    (by decide) (.inr (.inl rfl)) (by decide) (by decide)).1

/-- base64.b64encode with its trailing '=' padding stripped, as an
itty.bitty-style transport payload would carry it. -/
def b64MainChunks : List Nat → List Char
  | b0 :: b1 :: b2 :: rest =>
    b64Char (b0 / 4) :: b64Char ((b0 % 4) * 16 + b1 / 16) ::
    b64Char ((b1 % 16) * 4 + b2 / 64) :: b64Char (b2 % 64) :: b64MainChunks rest
  | [b0, b1] => [b64Char (b0 / 4), b64Char ((b0 % 4) * 16 + b1 / 16), b64Char ((b1 % 16) * 4)]
  | [b0] => [b64Char (b0 / 4), b64Char ((b0 % 4) * 16)]
  | [] => []

/-- Number of '=' characters full-padding base64 appends for a byte
string of the given length. -/
def padLen (n : Nat) : Nat := (3 - n % 3) % 3

theorem mainChunks_spec : ∀ bs : List Nat,
    b64EncodeChunks bs = b64MainChunks bs ++ padChars (padLen bs.length) := by
  intro bs
  induction bs using b64MainChunks.induct with
  | case4 => rfl
  | case3 b0 => rfl
  | case2 b0 b1 => rfl
  | case1 b0 b1 b2 rest ih =>
    have hp : padLen (b0 :: b1 :: b2 :: rest).length = padLen rest.length := by
      simp only [List.length_cons, padLen]
      omega
    rw [b64EncodeChunks, b64MainChunks, ih, hp]
    simp

/-- The padding counts of the strategy-2 base64 attempt events of a
trace, in order. -/
def b64Pads : List Ev → List Nat
  | [] => []
  | .s2b64 p _ :: rest => p :: b64Pads rest
  | e :: rest =>
    match e with
    | _ => b64Pads rest

theorem b64Pads_append : ∀ t1 t2 : List Ev,
    b64Pads (t1 ++ t2) = b64Pads t1 ++ b64Pads t2 := by
  intro t1 t2
  induction t1 with
  | nil => rfl
  | cons e rest ih =>
    cases e <;> simp [b64Pads, ih]

theorem b64Pads_s2Skips (lz : List Nat → Option (List Nat)) (bytes : List Nat)
    (padding : Nat) : ∀ ks : List Nat, b64Pads (s2Skips lz bytes padding ks).1 = [] := by
  intro ks
  induction ks with
  | nil => rfl
  | cons k ks ih =>
    rw [s2Skips]
    dsimp only
    split
    · simpa [b64Pads] using ih
    · split <;> rfl

/-- The outer loop of strategy 2 attempts the padding counts of its
range in order, so its base64 events enumerate a prefix of that
range. -/
theorem b64Pads_inOrder (lz : List Nat → Option (List Nat)) (bp : List Char) :
    ∀ ps : List Nat, b64Pads (s2Paddings lz bp ps).1 <+: ps := by
  intro ps
  induction ps with
  | nil => simp [s2Paddings, b64Pads]
  | cons p ps ih =>
    rw [s2Paddings]
    dsimp only
    split
    · simp [b64Pads]
    · simp only [b64Pads]
      exact List.cons_prefix_cons.mpr ⟨rfl, ih⟩
    · rename_i bytes hbytes
      split
      · rename_i evs text heq
        have he : b64Pads evs = [] := by
          have hh := b64Pads_s2Skips lz bytes p [0, 5, 9, 13]
          rw [heq] at hh
          exact hh
        simp [b64Pads, he]
      · rename_i evs e heq
        have he : b64Pads evs = [] := by
          have hh := b64Pads_s2Skips lz bytes p [0, 5, 9, 13]
          rw [heq] at hh
          exact hh
        simp [b64Pads, he]
      · rename_i evs heq
        have he : b64Pads evs = [] := by
          have hh := b64Pads_s2Skips lz bytes p [0, 5, 9, 13]
          rw [heq] at hh
          exact hh
        rw [show Ev.s2b64 p true :: evs ++ (s2Paddings lz bp ps).1 =
            (Ev.s2b64 p true :: evs) ++ (s2Paddings lz bp ps).1 from rfl]
        rw [b64Pads_append]
        simp only [b64Pads, he]
        exact List.cons_prefix_cons.mpr ⟨rfl, ih⟩

/-- Every output of the encoding alphabet map is a non-pad alphabet
character, whatever its argument. -/
theorem b64Char_alpha (n : Nat) : ∃ d, b64Index (b64Char n) = some d ∧ b64Char n ≠ '=' := by
  by_cases h : n < 64
  · exact ⟨n, b64Index_b64Char n h, b64Char_ne_pad n h⟩
  · have hc : b64Char n = '/' := by
      rw [b64Char]
      rw [if_neg (by omega), if_neg (by omega), if_neg (by omega), if_neg (by omega)]
    rw [hc]
    exact ⟨63, by decide, by decide⟩

/-- a2b_base64 of a stripped encoding with too few pad characters
restored ends mid-quad and raises binascii.Error. -/
theorem a2bRun_main_incomplete (bs : List Nat) :
    ∀ (l p : Nat) (acc : List Nat),
      (bs.length % 3 = 2 → a2bRun (b64MainChunks bs) 0 l p acc = .error .binasciiError) ∧
      (bs.length % 3 = 1 → a2bRun (b64MainChunks bs) 0 l p acc = .error .binasciiError ∧
        a2bRun (b64MainChunks bs ++ ['=']) 0 l p acc = .error .binasciiError) := by
  induction bs using b64MainChunks.induct with
  | case4 => intro l p acc; simp
  | case3 b0 =>
    intro l p acc
    obtain ⟨d1, hi1, hne1⟩ := b64Char_alpha (b0 / 4)
    obtain ⟨d2, hi2, hne2⟩ := b64Char_alpha ((b0 % 4) * 16)
    refine ⟨fun h => by simp at h, fun _ => ⟨?_, ?_⟩⟩
    · rw [b64MainChunks]
      rw [a2bRun_step0 _ _ hi1 hne1, a2bRun_step1 _ _ hi2 hne2]
      rfl
    · rw [b64MainChunks]
      simp only [List.cons_append, List.nil_append]
      rw [a2bRun_step0 _ _ hi1 hne1, a2bRun_step1 _ _ hi2 hne2]
      rfl
  | case2 b0 b1 =>
    intro l p acc
    obtain ⟨d1, hi1, hne1⟩ := b64Char_alpha (b0 / 4)
    obtain ⟨d2, hi2, hne2⟩ := b64Char_alpha ((b0 % 4) * 16 + b1 / 16)
    obtain ⟨d3, hi3, hne3⟩ := b64Char_alpha ((b1 % 16) * 4)
    refine ⟨fun _ => ?_, fun h => by simp at h⟩
    rw [b64MainChunks]
    rw [a2bRun_step0 _ _ hi1 hne1, a2bRun_step1 _ _ hi2 hne2, a2bRun_step2 _ _ hi3 hne3]
    rfl
  | case1 b0 b1 b2 rest ih =>
    intro l p acc
    obtain ⟨d1, hi1, hne1⟩ := b64Char_alpha (b0 / 4)
    obtain ⟨d2, hi2, hne2⟩ := b64Char_alpha ((b0 % 4) * 16 + b1 / 16)
    obtain ⟨d3, hi3, hne3⟩ := b64Char_alpha ((b1 % 16) * 4 + b2 / 64)
    obtain ⟨d4, hi4, hne4⟩ := b64Char_alpha (b2 % 64)
    have hlen : (b0 :: b1 :: b2 :: rest).length % 3 = rest.length % 3 := by
      simp only [List.length_cons]
      omega
    constructor
    · intro h2
      rw [hlen] at h2
      rw [b64MainChunks]
      rw [a2bRun_step0 _ _ hi1 hne1, a2bRun_step1 _ _ hi2 hne2,
        a2bRun_step2 _ _ hi3 hne3, a2bRun_step3 _ _ hi4 hne4]
      exact (ih 0 0 _).1 h2
    · intro h1
      rw [hlen] at h1
      refine ⟨?_, ?_⟩
      · rw [b64MainChunks]
        rw [a2bRun_step0 _ _ hi1 hne1, a2bRun_step1 _ _ hi2 hne2,
          a2bRun_step2 _ _ hi3 hne3, a2bRun_step3 _ _ hi4 hne4]
        exact ((ih 0 0 _).2 h1).1
      · rw [b64MainChunks]
        simp only [List.cons_append]
        rw [a2bRun_step0 _ _ hi1 hne1, a2bRun_step1 _ _ hi2 hne2,
          a2bRun_step2 _ _ hi3 hne3, a2bRun_step3 _ _ hi4 hne4]
        exact ((ih 0 0 _).2 h1).2

theorem b64Char_ascii_all (n : Nat) : (b64Char n).toNat < 128 := by
  by_cases h : n < 64
  · exact b64Char_ascii n h
  · rw [b64Char, if_neg (by omega), if_neg (by omega), if_neg (by omega), if_neg (by omega)]
    decide

theorem b64MainChunks_ascii : ∀ bs : List Nat, ∀ c ∈ b64MainChunks bs, c.toNat < 128 := by
  intro bs
  induction bs using b64MainChunks.induct with
  | case4 => simp [b64MainChunks]
  | case3 b0 =>
    intro c hc
    simp only [b64MainChunks, List.mem_cons, List.not_mem_nil, or_false] at hc
    rcases hc with rfl | rfl
    · exact b64Char_ascii_all _
    · exact b64Char_ascii_all _
  | case2 b0 b1 =>
    intro c hc
    simp only [b64MainChunks, List.mem_cons, List.not_mem_nil, or_false] at hc
    rcases hc with rfl | rfl | rfl
    · exact b64Char_ascii_all _
    · exact b64Char_ascii_all _
    · exact b64Char_ascii_all _
  | case1 b0 b1 b2 rest ih =>
    intro c hc
    simp only [b64MainChunks, List.mem_cons] at hc
    rcases hc with rfl | rfl | rfl | rfl | h
    · exact b64Char_ascii_all _
    · exact b64Char_ascii_all _
    · exact b64Char_ascii_all _
    · exact b64Char_ascii_all _
    · exact ih c h

/-- base64.b64decode of a full-padding encoding of genuine bytes
recovers the bytes. -/
theorem b64decode_enc (bs : List Nat) (hb : ∀ b ∈ bs, b < 256) :
    b64decodeChars (b64EncodeChunks bs) = .ok bs := by
  rw [b64decodeChars, if_neg ?h]
  case h =>
    intro hany
    rw [List.any_eq_true] at hany
    obtain ⟨c, hc, hge⟩ := hany
    rcases b64EncodeChunks_chars bs hb c hc with rfl | ⟨v, hv, rfl⟩
    · simp at hge
    · have := b64Char_ascii v hv
      simp at hge
      omega
  · simpa using a2bRun_enc bs 0 0 [] hb

/-- base64.b64decode of a stripped encoding with too few pad
characters restored raises binascii.Error. -/
theorem b64decode_main_fail (bs : List Nat) (p : Nat) (hp : p < padLen bs.length) :
    b64decodeChars (b64MainChunks bs ++ padChars p) = .error .binasciiError := by
  rw [b64decodeChars, if_neg ?h]
  case h =>
    intro hany
    rw [List.any_eq_true] at hany
    obtain ⟨c, hc, hge⟩ := hany
    rcases List.mem_append.mp hc with hm | hm
    · have := b64MainChunks_ascii bs c hm
      simp at hge
      omega
    · rw [padChars] at hm
      rw [List.eq_of_mem_replicate hm] at hge
      simp at hge
  · rcases hm : bs.length % 3 with _ | _ | _ | k
    · rw [padLen, hm] at hp
      omega
    · have h2 := (a2bRun_main_incomplete bs 0 0 []).2 hm
      rw [padLen, hm] at hp
      by_cases hp0 : p = 0
      · subst hp0
        simpa [padChars] using h2.1
      · have hp1 : p = 1 := by omega
        subst hp1
        simpa [padChars] using h2.2
    · have h2 := (a2bRun_main_incomplete bs 0 0 []).1 hm
      rw [padLen, hm] at hp
      have hp0 : p = 0 := by omega
      subst hp0
      simpa [padChars] using h2
    · have := Nat.mod_lt bs.length (show 0 < 3 by decide)
      omega

/-- Claim C6: strategy 2's padding loop attempts at most the four
padding counts 0, 1, 2, 3 in that order (its base64 events enumerate a
prefix of that range) and stops at the first successful decode; and a
validly-encoded payload whose trailing padding was stripped decodes
successfully exactly at the padding count its true length requires,
failing with binascii.Error at every smaller count. -/
theorem c6_padding_repair (lz : List Nat → Option (List Nat)) (bp : List Char) :
    (b64Pads (s2Paddings lz bp [0, 1, 2, 3]).1 <+: [0, 1, 2, 3] ∧
      okStopped (s2Paddings lz bp [0, 1, 2, 3]).1 = true) ∧
      ∀ bs : List Nat, (∀ b ∈ bs, b < 256) →
        b64decodeChars (b64MainChunks bs ++ padChars (padLen bs.length)) = .ok bs ∧
          ∀ p < padLen bs.length,
            b64decodeChars (b64MainChunks bs ++ padChars p) = .error .binasciiError := by
  refine ⟨⟨b64Pads_inOrder lz bp _, ?_⟩, ?_⟩
  · by_cases hex : (s2Paddings lz bp [0, 1, 2, 3]).2 = .exhausted
    · exact okStopped_all_false _ ((s2Paddings_trace lz bp [0, 1, 2, 3]).2.2.1 hex)
    · exact (s2Paddings_trace lz bp [0, 1, 2, 3]).2.2.2 hex
  · intro bs hb
    refine ⟨?_, fun p hp => b64decode_main_fail bs p hp⟩
    rw [← mainChunks_spec bs]
    exact b64decode_enc bs hb

theorem c6_padding_repair_witness :
    b64decodeChars (b64MainChunks [105] ++ padChars (padLen 1)) = .ok [105] ∧
      b64decodeChars (b64MainChunks [105] ++ padChars 0) = .error .binasciiError :=
  ⟨((c6_padding_repair (fun _ => none) "aQ".toList).2 [105] (by decide)).1,
    ((c6_padding_repair (fun _ => none) "aQ".toList).2 [105] (by decide)).2 0 (by decide)⟩

/-- str.split(sep) on a string not containing the two-character
separator returns the singleton list of the whole string. -/
theorem pySplit2_no_sep (a b : Char) : ∀ (l acc : List Char),
    containsSub l [a, b] = false → pySplit2 a b l acc = [acc.reverse ++ l] := by
  intro l
  induction l with
  | nil => intro acc _; simp [pySplit2]
  | cons c rest ih =>
    intro acc hc
    cases rest with
    | nil => simp [pySplit2]
    | cons c2 rest2 =>
      rw [containsSub] at hc
      simp only [Bool.or_eq_false_iff] at hc
      rw [pySplit2, if_neg ?hne]
      case hne =>
        rintro ⟨rfl, rfl⟩
        simp [List.isPrefixOf] at hc
      · rw [ih (c :: acc) hc.2]
        simp

theorem lastSplitSlashQ_whole (h : String)
    (hns : containsSub h.toList ['/', '?'] = false) :
    lastSplitSlashQ h = h.toList := by
  rw [lastSplitSlashQ, pySplit2_no_sep '/' '?' h.toList [] hns]
  simp

/-- Claim C10: on a hashlink matching neither shape and containing no
'/?' separator, strategy 3's payload extraction degenerates to the
whole hashlink, which the JS strategy pads to a multiple of 4 and
attempts to decode (an s3b64 event on the whole input always appears,
and on base64 success the legacy JS decompression is invoked), rather
than skipping to the network fallback. -/
theorem c10_js_whole_hashlink (h : String) (o : Oracles)
    (hrr : rerouteExtract h = none) (hstd : standardMatch h = none)
    (hns : containsSub h.toList ['/', '?'] = false)
    (hjc : o.jsCompile = some ()) :
    s3payload h none = h.toList ∧
      decode_hashlink h o = strategy3then4 h none o ∧
      (∃ ok, Ev.s3b64 h.toList (h.toList ++ padChars ((4 - h.toList.length % 4) % 4)) ok ∈
        (decode_hashlink h o).trace) ∧
      ∀ bytes, b64decodeChars (h.toList ++ padChars ((4 - h.toList.length % 4) % 4)) =
          .ok bytes →
        ∃ jok, Ev.jsCall bytes jok ∈ (decode_hashlink h o).trace := by
  have hpay : s3payload h none = h.toList := by
    rw [s3payload]
    exact lastSplitSlashQ_whole h hns
  have hdec : decode_hashlink h o = strategy3then4 h none o := by
    rw [decode_hashlink]
    rw [hrr, hstd]
  refine ⟨hpay, hdec, ?_, ?_⟩
  · rw [hdec, strategy3then4.eq_def, hjc]
    dsimp only
    rw [hpay]
    repeat' split
    all_goals first
      | (refine ⟨true, ?_⟩; simp; done)
      | (refine ⟨false, ?_⟩; simp; done)
  · intro bytes hb
    rw [hdec, strategy3then4.eq_def, hjc]
    dsimp only
    rw [hpay, hb]
    dsimp only
    repeat' split
    all_goals first
      | (refine ⟨true, ?_⟩; simp; done)
      | (refine ⟨false, ?_⟩; simp; done)

theorem c10_js_whole_hashlink_witness :
    s3payload "AAAA" none = "AAAA".toList ∧
      ∃ jok, Ev.jsCall [0, 0, 0] jok ∈ (decode_hashlink "AAAA" oHi).trace :=
  ⟨(c10_js_whole_hashlink "AAAA" oHi (by decide) (by decide) (by decide) rfl).1,
    (c10_js_whole_hashlink "AAAA" oHi (by decide) (by decide) (by decide) rfl).2.2.2
      [0, 0, 0] rfl⟩

def c7body : String := String.mk (redirectMarker ++ "<body>X</body>".toList)

def oRedirect : Oracles :=
  { lzDec := fun _ => none
    jsCompile := none
    jsDec := fun _ => .err
    net := fun u _ =>
      if u = "https://itty.bitty.site/v1/#t" then .ok 200 "zz" else .ok 200 c7body }

/-- Claim C7 counterexample: the initial response carries the
versioned-redirect marker, the retried GET returns 200 but its body
has no body tags; the content returned to the caller is then extracted
from the INITIAL response and labeled with the plain fail-safe version,
not the retry-path label, although a redirect occurred and the retried
GET was issued. -/
theorem c7_counterexample :
    (decode_hashlink "h#t" oRedirect).trace =
        [.s3start, .netGet "h#t" 10, .netGet "https://itty.bitty.site/v1/#t" 10] ∧
      (decode_hashlink "h#t" oRedirect).res = .success "X".toList versionFetch :=
  ⟨by decide, by decide⟩

/-- Claim C7 (amended): when the initial 200 response contains the
versioned-redirect marker and the fragment split succeeds, exactly one
retried GET is issued against the reconstructed v1 URL with the same
10-second timeout, whatever HTTP status the retry returns; if the
retry is 200 and its (toast-rewritten) body yields content, that
content is returned with the retry-path label; otherwise — retry 200
without extractable body content, or retry with any non-200 status —
the result falls back to extraction from the INITIAL response with the
plain fail-safe label. -/
theorem c7_amended_redirect (h : String) (o : Oracles) (body1 rbody : String)
    (rstatus : Nat) (hp : List Char)
    (h1 : o.net h 10 = .ok 200 body1)
    (h2 : containsSub (toastRewrite body1.toList) redirectMarker = true)
    (h3 : hashSplitIndex1 h = some hp)
    (h4 : o.net (String.mk ("https://itty.bitty.site/v1/#".toList ++ hp)) 10 =
      .ok rstatus rbody) :
    (ibsFetch h o).trace =
        [.netGet h 10, .netGet (String.mk ("https://itty.bitty.site/v1/#".toList ++ hp)) 10] ∧
      (∀ content, rstatus = 200 → bodySearch (toastRewrite rbody.toList) = some content →
        (ibsFetch h o).res =
          .success (pyStripChars content) (versionFetch ++ " (via v1 retry)")) ∧
      (rstatus = 200 → bodySearch (toastRewrite rbody.toList) = none →
        (ibsFetch h o).res =
          (initialExtract (toastRewrite body1.toList)
            [.netGet h 10,
              .netGet (String.mk ("https://itty.bitty.site/v1/#".toList ++ hp)) 10]).res) ∧
      (rstatus ≠ 200 →
        (ibsFetch h o).res =
          (initialExtract (toastRewrite body1.toList)
            [.netGet h 10,
              .netGet (String.mk ("https://itty.bitty.site/v1/#".toList ++ hp)) 10]).res) := by
  have hfetch : ibsFetch h o =
      if rstatus = 200 then
        match bodySearch (toastRewrite rbody.toList) with
        | some content =>
          ⟨.success (pyStripChars content) (versionFetch ++ " (via v1 retry)"),
           [.netGet h 10,
             .netGet (String.mk ("https://itty.bitty.site/v1/#".toList ++ hp)) 10]⟩
        | none =>
          initialExtract (toastRewrite body1.toList)
            [.netGet h 10,
              .netGet (String.mk ("https://itty.bitty.site/v1/#".toList ++ hp)) 10]
      else
        initialExtract (toastRewrite body1.toList)
          [.netGet h 10,
            .netGet (String.mk ("https://itty.bitty.site/v1/#".toList ++ hp)) 10] := by
    rw [ibsFetch, h1]
    dsimp only
    rw [if_pos rfl, if_pos h2, h3]
    dsimp only
    rw [h4]
  refine ⟨?_, ?_, ?_, ?_⟩
  · rw [hfetch]
    by_cases hs : rstatus = 200
    · rw [if_pos hs]
      rcases hb : bodySearch (toastRewrite rbody.toList) with _ | content
      · simp only [initialExtract]
        split <;> rfl
      · rfl
    · rw [if_neg hs]
      simp only [initialExtract]
      split <;> rfl
  · intro content hs hcon
    rw [hfetch, if_pos hs, hcon]
  · intro hs hcon
    rw [hfetch, if_pos hs, hcon]
  · intro hs
    rw [hfetch, if_neg hs]

def oRedirect2 : Oracles :=
  { lzDec := fun _ => none
    jsCompile := none
    jsDec := fun _ => .err
    net := fun u _ =>
      if u = "https://itty.bitty.site/v1/#t" then .ok 200 "<body>Y</body>"
      else .ok 200 c7body }

def oRedirect3 : Oracles :=
  { lzDec := fun _ => none
    jsCompile := none
    jsDec := fun _ => .err
    net := fun u _ =>
      if u = "https://itty.bitty.site/v1/#t" then .ok 404 "<body>Y</body>"
      else .ok 200 c7body }

theorem c7_amended_redirect_witness :
    ((ibsFetch "h#t" oRedirect2).trace =
        [.netGet "h#t" 10,
          .netGet (String.mk ("https://itty.bitty.site/v1/#".toList ++ "t".toList)) 10] ∧
      (ibsFetch "h#t" oRedirect2).res =
        .success (pyStripChars "Y".toList) (versionFetch ++ " (via v1 retry)")) ∧
      (ibsFetch "h#t" oRedirect3).res =
        (initialExtract (toastRewrite c7body.toList)
          [.netGet "h#t" 10,
            .netGet (String.mk ("https://itty.bitty.site/v1/#".toList ++ "t".toList)) 10]).res :=
  ⟨⟨(c7_amended_redirect "h#t" oRedirect2 c7body "<body>Y</body>" 200 "t".toList rfl
      (by decide) (by decide) rfl).1,
    (c7_amended_redirect "h#t" oRedirect2 c7body "<body>Y</body>" 200 "t".toList rfl
      (by decide) (by decide) rfl).2.1 "Y".toList rfl (by decide)⟩,
    (c7_amended_redirect "h#t" oRedirect3 c7body "<body>Y</body>" 404 "t".toList rfl
      (by decide) (by decide) rfl).2.2.2 (by decide)⟩

/-- quote() output contains none of the URL-structural characters the
decode patterns key on. -/
theorem percentEncodeChars_good (s : List Char) :
    ∀ c ∈ percentEncodeChars s,
      c ≠ '/' ∧ c ≠ '?' ∧ c ≠ '\n' ∧ c ≠ ':' ∧ c ≠ '#' := by
  intro c hc
  rw [percentEncodeChars] at hc
  rcases List.mem_flatMap.mp hc with ⟨b, hbm, hcb⟩
  have hb256 : b < 256 := utf8EncodeList_lt s b hbm
  by_cases hsafe : (b < 128 && alwaysSafe (Char.ofNat b)) = true
  · rw [if_pos hsafe] at hcb
    simp only [List.mem_singleton] at hcb
    subst hcb
    simp only [Bool.and_eq_true, decide_eq_true_eq] at hsafe
    obtain ⟨hb128, hsafeA⟩ := hsafe
    refine ⟨?_, ?_, ?_, ?_, ?_⟩ <;>
      · intro heq
        rw [heq] at hsafeA
        exact absurd hsafeA (by decide)
  · rw [if_neg hsafe] at hcb
    have h16a : b / 16 < 16 := by omega
    have h16b : b % 16 < 16 := by omega
    have hexg : ∀ n, n < 16 → hexUpper n ≠ '/' ∧ hexUpper n ≠ '?' ∧ hexUpper n ≠ '\n' ∧
        hexUpper n ≠ ':' ∧ hexUpper n ≠ '#' := by decide
    simp only [List.mem_cons, List.not_mem_nil, or_false] at hcb
    rcases hcb with rfl | rfl | rfl
    · exact ⟨by decide, by decide, by decide, by decide, by decide⟩
    · exact hexg _ h16a
    · exact hexg _ h16b

/-- base64 output contains no colon and no newline. -/
theorem b64EncodeChunks_good (bs : List Nat) (hbs : ∀ b ∈ bs, b < 256) :
    ∀ c ∈ b64EncodeChunks bs, c ≠ ':' ∧ c ≠ '\n' := by
  intro c hc
  rcases b64EncodeChunks_chars bs hbs c hc with rfl | ⟨v, hv, rfl⟩
  · exact ⟨by decide, by decide⟩
  · have hg : ∀ v, v < 64 → b64Char v ≠ ':' ∧ b64Char v ≠ '\n' := by decide
    exact hg v hv

theorem tryMarker_none (l : List Char) (h : ':' ∉ l) : tryMarker l = none := by
  rw [tryMarker, if_neg]
  intro hpre
  obtain ⟨t, rfl⟩ := List.isPrefixOf_iff_prefix.mp hpre
  apply h
  rw [rerouteMarker_eq]
  simp

theorem afterOptHashSlash_none (l : List Char) (h : ':' ∉ l) :
    afterOptHashSlash l = none := by
  have h0 : tryMarker l = none := tryMarker_none l h
  rcases l with _ | ⟨c, rest⟩
  · simp [afterOptHashSlash, Option.orElse, h0]
  · have ht : tryMarker rest = none := tryMarker_none rest fun hm => h (by simp [hm])
    by_cases h1 : c = '#'
    · subst h1
      simp [afterOptHashSlash, Option.orElse, ht, h0]
    · by_cases h2 : c = '/'
      · subst h2
        simp [afterOptHashSlash, Option.orElse, ht, h0]
      · simp [afterOptHashSlash, Option.orElse, ht, h0, h1, h2]

theorem afterOptSlash_none (l : List Char) (h : ':' ∉ l) :
    afterOptSlash l = none := by
  have h0 : afterOptHashSlash l = none := afterOptHashSlash_none l h
  rcases l with _ | ⟨c, rest⟩
  · simp [afterOptSlash, Option.orElse, h0]
  · have ht : afterOptHashSlash rest = none :=
      afterOptHashSlash_none rest fun hm => h (by simp [hm])
    by_cases h2 : c = '/'
    · subst h2
      simp [afterOptSlash, Option.orElse, ht, h0]
    · simp [afterOptSlash, Option.orElse, ht, h0, h2]

theorem starNonSlash_none (l : List Char) (h : ':' ∉ l) : starNonSlash l = none := by
  induction l with
  | nil => simpa [starNonSlash] using afterOptSlash_none [] h
  | cons c rest ih =>
    rw [starNonSlash]
    by_cases hc : c = '/'
    · rw [if_pos hc]
      exact afterOptSlash_none _ h
    · rw [if_neg hc]
      rw [ih fun hm => h (by simp [hm])]
      simpa [Option.orElse] using afterOptSlash_none _ h

theorem findLazySep_skip (tail : List Char) :
    ∀ (pre acc : List Char), (∀ c ∈ pre, c ≠ '/' ∧ c ≠ '\n') →
    findLazySep (pre ++ '/' :: '?' :: tail) acc = some (acc.reverse ++ pre, tail) := by
  intro pre
  induction pre with
  | nil => intro acc _; simp [findLazySep]
  | cons c pre ih =>
    intro acc hpre
    have hc := hpre c (by simp)
    rw [List.cons_append, findLazySep.eq_def]
    split
    · rename_i tail2 heq
      rw [List.cons.injEq] at heq
      exact absurd heq.1 hc.1
    · rename_i c2 rest2 hne h2
      rw [List.cons.injEq] at h2
      obtain ⟨h2a, h2b⟩ := h2
      subst h2a
      subst h2b
      rw [if_neg (by simpa using hc.2)]
      rw [ih _ fun d hd => hpre d (by simp [hd])]
      simp
    · rename_i heq
      exact absurd heq (by simp)

/-- The generated hashlink cannot match the reroute shape: nothing
after its fragment hash contains a colon. -/
theorem rerouteExtract_gen_none (rest : List Char) (h : ':' ∉ rest) :
    rerouteExtract (String.mk (stdPrefix ++ rest)) = none := by
  have hpfx : stdPrefix = sitePrefix ++ ['#'] := by decide
  have hlist : (String.mk (stdPrefix ++ rest)).toList = sitePrefix ++ ('#' :: rest) := by
    rw [show (String.mk (stdPrefix ++ rest)).toList = stdPrefix ++ rest from rfl, hpfx]
    simp
  rw [rerouteExtract]
  simp only [hlist]
  rw [if_pos (List.isPrefixOf_iff_prefix.mpr (List.prefix_append _ _))]
  rw [List.drop_left]
  rw [List.dropWhile_cons_of_neg (by simp)]
  simp only []
  rw [starNonSlash_none rest h]
  rfl

theorem standardMatch_gen (titleEnc b64 : List Char)
    (ht : ∀ c ∈ titleEnc, c ≠ '/' ∧ c ≠ '\n')
    (hb : ∀ c ∈ b64, c ≠ '\n') :
    standardMatch (String.mk (stdPrefix ++ (titleEnc ++ '/' :: '?' :: b64))) =
      some (titleEnc, b64) := by
  have hlist : (String.mk (stdPrefix ++ (titleEnc ++ '/' :: '?' :: b64))).toList =
      stdPrefix ++ (titleEnc ++ '/' :: '?' :: b64) := rfl
  rw [standardMatch]
  simp only [hlist]
  rw [if_pos (List.isPrefixOf_iff_prefix.mpr (List.prefix_append _ _))]
  rw [List.drop_left]
  rw [findLazySep_skip b64 titleEnc [] ht]
  simp only [List.reverse_nil, List.nil_append]
  rw [List.takeWhile_eq_self_iff.mpr (by simpa using hb)]

def oIdLz : Oracles :=
  { lzDec := fun bs => some bs
    jsCompile := some ()
    jsDec := fun _ => .err
    net := fun _ _ => .connError }

/-- Claim C2: round trip.  When the decoder's LZMA oracle inverts the
generator's compressor (and the compressor emits genuine bytes), the
hashlink built by generate_hashlink decodes through strategy 2 back to
the rendered HTML document, succeeding at padding count 0 and skip
offset 0 with the standard version label. -/
theorem c2_roundtrip (inp : GenInputs) (btc : String) (lzComp : List Nat → List Nat)
    (o : Oracles) (url : String)
    (hlz1 : ∀ bs, o.lzDec (lzComp bs) = some bs)
    (hlz2 : ∀ bs, (∀ b ∈ bs, b < 256) → ∀ b ∈ lzComp bs, b < 256)
    (hgen : generate_hashlink inp btc lzComp = .ok url) :
    decode_hashlink url o =
      ⟨.success (renderedDocument inp btc) versionStandard,
        [.s2b64 0 true, .s2lzma 0 0 true]⟩ := by
  rw [generate_hashlink] at hgen
  split at hgen
  · exact absurd hgen (by simp)
  · split at hgen
    · exact absurd hgen (by simp)
    · rw [Except.ok.injEq] at hgen
      subst hgen
      have hdoc256 : ∀ b ∈ utf8EncodeList (renderedDocument inp btc), b < 256 :=
        utf8EncodeList_lt _
      have hcomp256 : ∀ b ∈ lzComp (utf8EncodeList (renderedDocument inp btc)), b < 256 :=
        hlz2 _ hdoc256
      have htE := percentEncodeChars_good
        (if (titleRender (sanitizeTitle inp.title.toList)).2.isEmpty
          then "Title Goes Here".toList else (titleRender (sanitizeTitle inp.title.toList)).2)
      have hb64g := b64EncodeChunks_good _ hcomp256
      have hassoc : stdPrefix ++ percentEncodeChars
            (if (titleRender (sanitizeTitle inp.title.toList)).2.isEmpty
              then "Title Goes Here".toList else (titleRender (sanitizeTitle inp.title.toList)).2)
            ++ ('/' :: '?' :: b64EncodeChunks (lzComp (utf8EncodeList (renderedDocument inp btc)))) =
          stdPrefix ++ (percentEncodeChars
            (if (titleRender (sanitizeTitle inp.title.toList)).2.isEmpty
              then "Title Goes Here".toList else (titleRender (sanitizeTitle inp.title.toList)).2)
            ++ ('/' :: '?' :: b64EncodeChunks (lzComp (utf8EncodeList (renderedDocument inp btc))))) :=
        List.append_assoc _ _ _
      rw [decode_hashlink]
      rw [hassoc]
      rw [rerouteExtract_gen_none _ ?hcolon]
      case hcolon =>
        intro hm
        rcases List.mem_append.mp hm with hmt | hmb
        · exact (htE ':' hmt).2.2.2.1 rfl
        · simp only [List.mem_cons] at hmb
          rcases hmb with heq | heq | hmb
          · exact absurd heq (by decide)
          · exact absurd heq (by decide)
          · exact (hb64g ':' hmb).1 rfl
      rw [standardMatch_gen _ _ (fun c hc => ⟨(htE c hc).1, (htE c hc).2.2.1⟩)
        (fun c hc => (hb64g c hc).2)]
      dsimp only
      have hb64ok : b64decodeChars
          (b64EncodeChunks (lzComp (utf8EncodeList (renderedDocument inp btc))) ++ padChars 0) =
          .ok (lzComp (utf8EncodeList (renderedDocument inp btc))) := by
        rw [show padChars 0 = [] from rfl, List.append_nil]
        exact b64decode_enc _ hcomp256
      have hskip : s2Skips o.lzDec (lzComp (utf8EncodeList (renderedDocument inp btc))) 0
          [0, 5, 9, 13] = ([.s2lzma 0 0 true], some (.ok (renderedDocument inp btc))) := by
        rw [s2Skips]
        simp only [List.drop_zero, hlz1, utf8_roundtrip]
      rw [s2Paddings]
      simp only [hb64ok, hskip]

def c2url : String :=
  match generate_hashlink ⟨"t", "b", ""⟩ "btc" (fun bs => bs) with
  | .ok u => u
  | .error _ => ""

theorem c2_roundtrip_witness :
    decode_hashlink c2url oIdLz =
      ⟨.success (renderedDocument ⟨"t", "b", ""⟩ "btc") versionStandard,
        [.s2b64 0 true, .s2lzma 0 0 true]⟩ :=
  c2_roundtrip ⟨"t", "b", ""⟩ "btc" (fun bs => bs) oIdLz c2url
    (fun _ => rfl) (fun _ h => h) (by rfl)
